import Mathlib

/-! # Receipt processor: the scoring function `receipt.points`

A shallow embedding of `main.go` (package `main` of `receipt-processor-api`):
`countAlphanumeric`, the `receipt` and `item` records and `receipt.points`,
together with the pieces of the Go standard library the scoring function
calls (`strings.ContainsRune`, `strings.TrimSpace`, `utf8.RuneCountInString`,
`strconv.ParseFloat`, `math.Trunc`, `math.Mod`, `math.Ceil`, `time.Parse`).

Modelling conventions.

* A Go `string` is modelled by a Lean `String`, that is a sequence of Unicode
  code points: the strings of a decoded JSON document are valid UTF-8, and
  `for _, v := range s` then visits exactly these code points.
* A `float64` is modelled exactly: a finite value is the rational number it
  denotes, `±Inf` and `NaN` are separate constructors.  Positive and negative
  zero are identified: the program never observes the sign of a zero.
* Go `int` arithmetic wraps around (two's complement).  The width of `int`
  and the result of converting a `float64` that does not fit in an `int`
  are implementation-dependent in Go, so both are fields of a `Platform`.
-/

namespace Main

/-! ## Strings -/

/-- The constant `alphanumeric` of `main.go`. -/
def alphanumeric : String :=
  "abcdefghijklmnopqrstuvwxyzABCDEFGHIJKLMNOPQRSTUVWXYZ0123456789"

/-- Go `strings.ContainsRune(s, r)`: whether the code point `r` occurs in `s`. -/
def containsRune (s : String) (r : Char) : Bool :=
  s.toList.contains r

/-- Source `countAlphanumeric`: the loop `for _, v := range s` with its counter.
The counter is bounded by the length of the string, which fits in an `int`,
so the increment never wraps. -/
def countAlphanumeric (s : String) : Int :=
  s.toList.foldl
    (fun count v => if containsRune alphanumeric v then count + 1 else count) 0

/-- An ASCII letter (`a`-`z`, `A`-`Z`) or ASCII digit (`0`-`9`), as the
specification words the first scoring rule. -/
def isAsciiLetterOrDigit (c : Char) : Bool :=
  ('a' ≤ c && c ≤ 'z') || ('A' ≤ c && c ≤ 'Z') || ('0' ≤ c && c ≤ '9')

/-! ## `float64` -/

/-- A Go `float64` value: `NaN`, an infinity with its sign, or a finite value,
given by the rational number it denotes. -/
inductive F64 where
  | nan : F64
  | inf (neg : Bool) : F64
  | fin (v : ℚ) : F64
deriving DecidableEq

/-- The rational `2 ^ e` for an integer exponent. -/
def pow2 (e : Int) : ℚ :=
  if 0 ≤ e then ((2 ^ e.toNat : Nat) : ℚ) else 1 / ((2 ^ (-e).toNat : Nat) : ℚ)

/-- The rational `10 ^ e` for an integer exponent. -/
def pow10 (e : Int) : ℚ :=
  if 0 ≤ e then ((10 ^ e.toNat : Nat) : ℚ) else 1 / ((10 ^ (-e).toNat : Nat) : ℚ)

/-- Number of binary digits of `n`, by repeated halving (`fuel` bounds the loop). -/
def bitLenAux : Nat → Nat → Nat → Nat
  | 0, _, acc => acc
  | fuel + 1, n, acc => if n = 0 then acc else bitLenAux fuel (n / 2) (acc + 1)

/-- Number of binary digits of `n`. -/
def bitLen (n : Nat) : Nat := bitLenAux n n 0

/-- The integer part of the binary logarithm of the positive rational `n / d`. -/
def floorLog2 (n d : Nat) : Int :=
  let e0 : Int := (bitLen n : Int) - (bitLen d : Int)
  if (if 0 ≤ e0 then d * 2 ^ e0.toNat ≤ n else d ≤ n * 2 ^ (-e0).toNat) then e0 else e0 - 1

/-- The nearest natural number to a non-negative rational, ties to even. -/
def roundHalfEven (q : ℚ) : Nat :=
  let f := q.num.toNat / q.den
  let r := q.num.toNat % q.den
  if 2 * r < q.den then f
  else if q.den < 2 * r then f + 1
  else if f % 2 = 0 then f else f + 1

/-- IEEE-754 binary64 rounding (round to nearest, ties to even) of an exact
rational: 53 significant bits, least exponent `-1074` (subnormals), overflow to
an infinity from `2^1024 - 2^970` on. -/
def roundF64 (q : ℚ) : F64 :=
  if q = 0 then F64.fin 0
  else
    let a := |q|
    let u : Int := max (floorLog2 a.num.toNat a.den - 52) (-1074)
    let m := roundHalfEven (a / pow2 u)
    if 971 < u ∨ (u = 971 ∧ 2 ^ 53 ≤ m) then F64.inf (decide (q < 0))
    else F64.fin ((if q < 0 then -1 else 1) * (m : ℚ) * pow2 u)

/-- Go `x == y` on `float64`: `NaN` equals nothing, itself included. -/
def F64.eq : F64 → F64 → Bool
  | F64.fin a, F64.fin b => decide (a = b)
  | F64.inf a, F64.inf b => a == b
  | _, _ => false

/-- Go `x * y` on `float64`: the exact product, rounded. -/
def F64.mul : F64 → F64 → F64
  | F64.fin a, F64.fin b => roundF64 (a * b)
  | F64.nan, _ => F64.nan
  | _, F64.nan => F64.nan
  | F64.inf s, F64.inf t => F64.inf (s != t)
  | F64.inf s, F64.fin b => if b = 0 then F64.nan else F64.inf (s != decide (b < 0))
  | F64.fin a, F64.inf t => if a = 0 then F64.nan else F64.inf (decide (a < 0) != t)

/-- The integer part of a rational, rounding toward zero. -/
def truncQ (q : ℚ) : Int := if 0 ≤ q then ⌊q⌋ else ⌈q⌉

/-- Go `math.Trunc`: `Trunc(±Inf) = ±Inf`, `Trunc(NaN) = NaN`. -/
def Trunc : F64 → F64
  | F64.fin a => F64.fin (truncQ a)
  | x => x

/-- Go `math.Ceil`: `Ceil(±Inf) = ±Inf`, `Ceil(NaN) = NaN`. -/
def Ceil : F64 → F64
  | F64.fin a => F64.fin (⌈a⌉ : Int)
  | x => x

/-- Go `math.Mod(x, y)`, the floating-point remainder of `x / y` (exact for
finite operands): `Mod(±Inf, y) = NaN`, `Mod(NaN, y) = NaN`, `Mod(x, 0) = NaN`,
`Mod(x, ±Inf) = x`, `Mod(x, NaN) = NaN`. -/
def Mod : F64 → F64 → F64
  | F64.nan, _ => F64.nan
  | F64.inf _, _ => F64.nan
  | F64.fin _, F64.nan => F64.nan
  | F64.fin a, F64.inf _ => F64.fin a
  | F64.fin a, F64.fin b => if b = 0 then F64.nan else F64.fin (a - b * truncQ (a / b))

/-- The `float64` constant `0.2`: the literal, rounded to `float64`. -/
def c0_2 : F64 := roundF64 (2 / 10)

/-- The `float64` constant `0.25` (exactly representable). -/
def c0_25 : F64 := roundF64 (25 / 100)

/-- The `float64` constant `0`. -/
def c0 : F64 := F64.fin 0

/-! ## Go `int` -/

/-- The width of Go's `int`. -/
inductive IntSize where
  | bits32 : IntSize
  | bits64 : IntSize
deriving DecidableEq

/-- What the Go specification leaves to the implementation: the width of
`int`, and the value of `int(f)` for a `float64` `f` that an `int` cannot
represent ("the conversion succeeds but the result value is
implementation-dependent"). -/
structure Platform where
  intSize : IntSize
  indef : F64 → Int

/-- Number of bits of an `int`. -/
def Platform.intBits (p : Platform) : Nat :=
  match p.intSize with
  | IntSize.bits32 => 32
  | IntSize.bits64 => 64

/-- Two's complement wrap-around of an integer into the range of `int`. -/
def wrap (p : Platform) (x : Int) : Int := Int.bmod x (2 ^ p.intBits)

/-- Go `a + b` on `int`. -/
def addInt (p : Platform) (a b : Int) : Int := wrap p (a + b)

/-- Go `a - b` on `int`. -/
def subInt (p : Platform) (a b : Int) : Int := wrap p (a - b)

/-- Largest `int`. -/
def maxInt (p : Platform) : Int := 2 ^ (p.intBits - 1) - 1

/-- Least `int`. -/
def minInt (p : Platform) : Int := -(2 ^ (p.intBits - 1))

/-- Go `int(f)` for a `float64` `f`: the fraction is discarded (truncation
toward zero); when the result does not fit, or `f` is `NaN` or infinite, the
value is the platform's. -/
def toInt (p : Platform) (f : F64) : Int :=
  match f with
  | F64.fin a =>
    if minInt p ≤ truncQ a ∧ truncQ a ≤ maxInt p then truncQ a else wrap p (p.indef f)
  | _ => wrap p (p.indef f)

/-- The gc compiler on amd64: 64-bit `int`, and the conversion instruction
yields the least `int` for every unrepresentable operand. -/
def amd64 : Platform := ⟨IntSize.bits64, fun _ => -(2 ^ 63)⟩

/-- The gc compiler on arm64: 64-bit `int`, and the conversion saturates
(`NaN` gives `0`). -/
def arm64 : Platform :=
  ⟨IntSize.bits64, fun f =>
    match f with
    | F64.nan => 0
    | F64.inf true => -(2 ^ 63)
    | F64.inf false => 2 ^ 63 - 1
    | F64.fin a => if a < 0 then -(2 ^ 63) else 2 ^ 63 - 1⟩

/-! ## `strconv.ParseFloat` -/

/-- The two errors of `strconv.ParseFloat`: `strconv.ErrSyntax` (the string is
not a number) and `strconv.ErrRange` (it is one, too large for a `float64`). -/
inductive NumError where
  | ErrSyntax : NumError
  | ErrRange : NumError
deriving DecidableEq

/-- A decimal digit byte, Go `'0' <= c && c <= '9'`. -/
def isDigitChar (c : Char) : Bool := '0' ≤ c && c ≤ '9'

/-- The value of a decimal digit, Go `c - '0'`. -/
def digitVal (c : Char) : Nat := c.toNat - 48

/-- Go `strconv.lower`, `c | ('x' - 'X')` on a byte.  A byte of a multi-byte
character stays outside ASCII, so such a character is left alone. -/
def lower (c : Char) : Char :=
  if c.toNat < 128 then Char.ofNat (c.toNat ||| 32) else c

/-- Go `strconv.commonPrefixLenIgnoreCase(s, pre)`, for a lower-case `pre`. -/
def commonPrefixLenIgnoreCase : List Char → List Char → Nat
  | c :: s, x :: pre =>
    let c1 := if 'A' ≤ c ∧ c ≤ 'Z' then Char.ofNat (c.toNat + 32) else c
    if c1 = x then commonPrefixLenIgnoreCase s pre + 1 else 0
  | _, _ => 0

/-- The `case 'i', 'I'` arm of Go `strconv.special`: `inf` or `infinity`,
whatever the case of its letters; the result is the infinity and the text
that follows it. -/
def specialInf (neg : Bool) (s : List Char) : Option (F64 × List Char) :=
  let n := commonPrefixLenIgnoreCase s "infinity".toList
  let n1 := if 3 < n ∧ n < 8 then 3 else n
  if n1 = 3 ∨ n1 = 8 then some (F64.inf neg, s.drop n1) else none

/-- Go `strconv.special`: the strings `Inf`, `Infinity` (with an optional
sign) and `NaN` (without one). -/
def special (s : List Char) : Option (F64 × List Char) :=
  match s with
  | [] => none
  | c :: t =>
    if c = '+' ∨ c = '-' then specialInf (decide (c = '-')) t
    else if c = 'i' ∨ c = 'I' then specialInf false s
    else if c = 'n' ∨ c = 'N' then
      if commonPrefixLenIgnoreCase s "nan".toList = 3 then some (F64.nan, s.drop 3) else none
    else none

/-- The variables of the digit loop of Go `strconv.readFloat`.  `mant` holds
every significant digit (Go keeps the first 19, or 16 in base 16, and the flag
`trunc`, and rounds the number these digits denote exactly). -/
structure DigitState where
  mant : Nat
  nd : Int
  dp : Int
  sawdot : Bool
  sawdigits : Bool
  underscores : Bool

/-- A hexadecimal letter digit, Go `'a' <= lower(c) && lower(c) <= 'f'`. -/
def isHexLetter (c : Char) : Bool := 'a' ≤ lower c && lower c ≤ 'f'

/-- The digit loop of Go `strconv.readFloat` (`base16`: after a `0x`); the
result is the final state and the text not consumed. -/
def readDigits (base16 : Bool) : List Char → DigitState → DigitState × List Char
  | [], st => (st, [])
  | c :: s, st =>
    if c = '_' then readDigits base16 s { st with underscores := true }
    else if c = '.' then
      if st.sawdot then (st, c :: s)
      else readDigits base16 s { st with sawdot := true, dp := st.nd }
    else if isDigitChar c then
      if c = '0' ∧ st.nd = 0 then
        readDigits base16 s { st with sawdigits := true, dp := st.dp - 1 }
      else
        readDigits base16 s
          { st with sawdigits := true, nd := st.nd + 1,
                    mant := st.mant * (if base16 then 16 else 10) + digitVal c }
    else if base16 ∧ isHexLetter c then
      readDigits base16 s
        { st with sawdigits := true, nd := st.nd + 1,
                  mant := st.mant * 16 + ((lower c).toNat - 97 + 10) }
    else (st, c :: s)

/-- The exponent loop of Go `strconv.readFloat`: digits and underscores; the
exponent stops growing at `10000`. -/
def readExpDigits : List Char → Nat → Bool → Nat × Bool × List Char
  | [], e, us => (e, us, [])
  | c :: s, e, us =>
    if isDigitChar c then readExpDigits s (if e < 10000 then e * 10 + digitVal c else e) us
    else if c = '_' then readExpDigits s e true
    else (e, us, c :: s)

/-- The loop of Go `strconv.underscoreOK`; `saw` is the class of the last
character. -/
def underscoreOKLoop (hex : Bool) : List Char → Char → Bool
  | [], saw => saw != '_'
  | c :: s, saw =>
    if isDigitChar c ∨ (hex ∧ isHexLetter c) then underscoreOKLoop hex s '0'
    else if c = '_' then
      if saw ≠ '0' then false else underscoreOKLoop hex s '_'
    else if saw = '_' then false
    else underscoreOKLoop hex s '!'

/-- Go `strconv.underscoreOK`: underscores only between digits, or between a
base prefix and a digit. -/
def underscoreOK (s : List Char) : Bool :=
  let s1 := match s with
    | c :: t => if c = '-' ∨ c = '+' then t else s
    | [] => s
  match s1 with
  | a :: b :: t =>
    if a = '0' ∧ (lower b = 'b' ∨ lower b = 'o' ∨ lower b = 'x') then
      underscoreOKLoop (decide (lower b = 'x')) t '0'
    else underscoreOKLoop false s1 '^'
  | _ => underscoreOKLoop false s1 '^'

/-- What Go `strconv.readFloat` reads: the sign, the base, the digits and the
exponent of the last digit (a power of ten, or of two in base 16). -/
structure FloatParts where
  neg : Bool
  hex : Bool
  mant : Nat
  exp : Int

/-- The end of Go `strconv.readFloat`: the exponent of a zero mantissa is `0`,
and underscores must be well placed in the text consumed. -/
def readFloatFinish (s : List Char) (neg hex : Bool) (st : DigitState) (dp nd : Int)
    (underscores : Bool) (rest : List Char) : Option (FloatParts × List Char) :=
  let exp := if st.mant ≠ 0 then dp - nd else 0
  if underscores ∧ ¬ underscoreOK (s.take (s.length - rest.length)) then none
  else some (⟨neg, hex, st.mant, exp⟩, rest)

/-- Go `strconv.readFloat`: `none` when the result `ok` is false, otherwise the
parts read and the text that follows the number. -/
def readFloat (s : List Char) : Option (FloatParts × List Char) :=
  match s with
  | [] => none
  | c0 :: t0 =>
    let neg := decide (c0 = '-')
    let s1 := if c0 = '+' ∨ c0 = '-' then t0 else s
    let hex := match s1 with
      | a :: b :: _ :: _ => decide (a = '0') && decide (lower b = 'x')
      | _ => false
    let s2 := if hex then s1.drop 2 else s1
    let r := readDigits hex s2 ⟨0, 0, 0, false, false, false⟩
    let st := r.1
    let s3 := r.2
    if ¬ st.sawdigits then none
    else
      let dp0 := if st.sawdot then st.dp else st.nd
      let dp1 := if hex then dp0 * 4 else dp0
      let nd1 := if hex then st.nd * 4 else st.nd
      match s3 with
      | [] => if hex then none else readFloatFinish s neg hex st dp1 nd1 st.underscores s3
      | c :: s4 =>
        if lower c = (if hex then 'p' else 'e') then
          match s4 with
          | [] => none
          | d :: s5 =>
            let esign : Int := if d = '-' then -1 else 1
            let s6 := if d = '+' ∨ d = '-' then s5 else s4
            match s6 with
            | [] => none
            | d0 :: _ =>
              if ¬ isDigitChar d0 then none
              else
                let x := readExpDigits s6 0 st.underscores
                readFloatFinish s neg hex st (dp1 + (x.1 : Int) * esign) nd1 x.2.1 x.2.2
        else if hex then none
        else readFloatFinish s neg hex st dp1 nd1 st.underscores s3

/-- The exact value of the number read by `readFloat`. -/
def FloatParts.value (x : FloatParts) : ℚ :=
  (if x.neg then -1 else 1) * (x.mant : ℚ) * (if x.hex then pow2 x.exp else pow10 x.exp)

/-- Go `strconv.ParseFloat(s, 64)`: the value and the error.  A string that is
not a number gives `0` and `ErrSyntax`; a number gives the nearest `float64`
(ties to even), and when that is an infinity, the infinity and `ErrRange`. -/
def ParseFloat (s : String) : F64 × Option NumError :=
  match special s.toList with
  | some (f, rest) =>
    if rest = [] then (f, none) else (F64.fin 0, some NumError.ErrSyntax)
  | none =>
    match readFloat s.toList with
    | none => (F64.fin 0, some NumError.ErrSyntax)
    | some (x, rest) =>
      if rest ≠ [] then (F64.fin 0, some NumError.ErrSyntax)
      else
        match roundF64 x.value with
        | F64.inf b => (F64.inf b, some NumError.ErrRange)
        | f => (f, none)

/-! ## `strings.TrimSpace`, `utf8.RuneCountInString`, `fmt.Sprintf` -/

/-- Go `unicode.IsSpace`: the characters with the Unicode property
White_Space. -/
def isSpace (c : Char) : Bool :=
  let n := c.toNat
  n = 0x09 || n = 0x0A || n = 0x0B || n = 0x0C || n = 0x0D || n = 0x20 ||
  n = 0x85 || n = 0xA0 || n = 0x1680 || (0x2000 ≤ n && n ≤ 0x200A) ||
  n = 0x2028 || n = 0x2029 || n = 0x202F || n = 0x205F || n = 0x3000

/-- Go `strings.TrimSpace`: the string without its leading and trailing white
space. -/
def TrimSpace (s : String) : String :=
  String.mk ((s.toList.dropWhile isSpace).rdropWhile isSpace)

/-- Go `utf8.RuneCountInString`: the number of code points. -/
def RuneCountInString (s : String) : Int := (s.toList.length : Int)

/-- Go `fmt.Sprintf("%v %v", a, b)` on two strings. -/
def Sprintf (a b : String) : String := a ++ " " ++ b

/-! ## `time.Parse` with the layout `"2006-01-02 15:04"` -/

/-- The fields of the `time.Time` that `time.Parse` builds (in UTC: the layout
has no zone), as `Day()` and `Hour()` read them back. -/
structure Time where
  Year : Nat
  Month : Nat
  Day : Nat
  Hour : Nat
  Minute : Nat
deriving DecidableEq

/-- Go `time.getnum(s, fixed)`: one or two decimal digits, exactly two when
`fixed`. -/
def getnum (s : List Char) (fixed : Bool) : Option (Nat × List Char) :=
  match s with
  | [] => none
  | [a] =>
    if ¬ isDigitChar a then none
    else if fixed then none
    else some (digitVal a, [])
  | a :: b :: t =>
    if ¬ isDigitChar a then none
    else if ¬ isDigitChar b then
      if fixed then none else some (digitVal a, b :: t)
    else some (digitVal a * 10 + digitVal b, t)

/-- The layout element `2006` (`stdLongYear`): exactly four digits. -/
def parseYear (value : List Char) : Option (Nat × List Char) :=
  match value with
  | a :: b :: c :: d :: t =>
    if isDigitChar a ∧ isDigitChar b ∧ isDigitChar c ∧ isDigitChar d then
      some (digitVal a * 1000 + digitVal b * 100 + digitVal c * 10 + digitVal d, t)
    else none
  | _ => none

/-- Go `time.skip(value, pre)` for a one-byte `pre` other than a space: the
byte must come next. -/
def skipByte (c : Char) (value : List Char) : Option (List Char) :=
  match value with
  | [] => none
  | v :: t => if v = c then some t else none

/-- Go `time.skip(value, " ")`: a space in the layout matches zero or more
spaces, and fails on another character. -/
def skipSpace (value : List Char) : Option (List Char) :=
  match value with
  | [] => some []
  | v :: _ => if v ≠ ' ' then none else some (value.dropWhile (fun c => c = ' '))

/-- Go `time.isLeap`. -/
def isLeap (year : Nat) : Bool :=
  year % 4 = 0 && (year % 100 ≠ 0 || year % 400 = 0)

/-- Go `time.daysIn`. -/
def daysIn (month year : Nat) : Nat :=
  if month = 2 then (if isLeap year then 29 else 28)
  else if month = 4 ∨ month = 6 ∨ month = 9 ∨ month = 11 then 30
  else 31

/-- Go `time.Parse("2006-01-02 15:04", value)` on the characters of `value`:
`none` for an error.  The elements are a four-digit year, `-`, a two-digit
month in `1..12`, `-`, a two-digit day, spaces, an hour of one or two digits
below `24`, `:`, a two-digit minute below `60`, and nothing more; the day must
exist in the month. -/
def ParseChars (value : List Char) : Option Time :=
  (parseYear value).bind fun y =>
  (skipByte '-' y.2).bind fun v1 =>
  (getnum v1 true).bind fun m =>
  if m.1 = 0 ∨ 12 < m.1 then none else
  (skipByte '-' m.2).bind fun v2 =>
  (getnum v2 true).bind fun d =>
  (skipSpace d.2).bind fun v3 =>
  (getnum v3 false).bind fun h =>
  if 24 ≤ h.1 then none else
  (skipByte ':' h.2).bind fun v4 =>
  (getnum v4 true).bind fun mi =>
  if 60 ≤ mi.1 then none else
  if mi.2 ≠ [] then none else
  if d.1 < 1 ∨ daysIn m.1 y.1 < d.1 then none else
  some ⟨y.1, m.1, d.1, h.1, mi.1⟩

/-- Go `time.Parse("2006-01-02 15:04", value)`. -/
def Parse (value : String) : Option Time := ParseChars value.toList

/-! ## The receipt and its score -/

/-- Source `type item struct`. -/
structure item where
  ShortDescription : String
  Price : String

/-- Source `type receipt struct`. -/
structure receipt where
  Retailer : String
  PurchaseDate : String
  PurchaseTime : String
  Items : List item
  Total : String

/-- The body of the loop `for _, item := range r.Items` of `points`: the new
value of `points` after one item. -/
def itemStep (p : Platform) (points : Int) (it : item) : Int :=
  let descLen := RuneCountInString (TrimSpace it.ShortDescription)
  if descLen % 3 = 0 then
    let itemPrice := (ParseFloat it.Price).1
    addInt p points (toInt p (Ceil (F64.mul itemPrice c0_2)))
  else points

/-- Source `func (r receipt) points() int`. -/
def receipt.points (p : Platform) (r : receipt) : Int :=
  let points : Int := 0
  let points := addInt p points (countAlphanumeric r.Retailer)
  let total := (ParseFloat r.Total).1
  let points := if F64.eq total (Trunc total) then addInt p points 50 else points
  let points := if F64.eq (Mod total c0_25) c0 then addInt p points 25 else points
  let totalLines : Int := (r.Items.length : Int)
  let points :=
    if totalLines > 2 then addInt p points (wrap p (totalLines / 2 * 5)) else points
  let points := r.Items.foldl (itemStep p) points
  match Parse (Sprintf r.PurchaseDate r.PurchaseTime) with
  | none => points
  | some purchasedAt =>
    let points := if purchasedAt.Day % 2 ≠ 0 then addInt p points 6 else points
    let points :=
      if purchasedAt.Hour ≥ 14 ∧ purchasedAt.Hour ≤ 16 then addInt p points 10 else points
    points

/-- The first receipt of `Test_receipt_points` (`"Target"`). -/
def targetReceipt : receipt :=
  { Retailer := "Target", PurchaseDate := "2022-01-01", PurchaseTime := "13:01",
    Items := [⟨"Mountain Dew 12PK", "6.49"⟩, ⟨"Emils Cheese Pizza", "12.25"⟩,
      ⟨"Knorr Creamy Chicken", "1.26"⟩, ⟨"Doritos Nacho Cheese", "3.35"⟩,
      ⟨"   Klarbrunn 12-PK 12 FL OZ  ", "12.00"⟩],
    Total := "35.35" }

/-- The second receipt of `Test_receipt_points` (`"M&M Corner Market"`). -/
def cornerMarketReceipt : receipt :=
  { Retailer := "M&M Corner Market", PurchaseDate := "2022-03-20", PurchaseTime := "14:33",
    Items := [⟨"Gatorade", "2.25"⟩, ⟨"Gatorade", "2.25"⟩, ⟨"Gatorade", "2.25"⟩,
      ⟨"Gatorade", "2.25"⟩],
    Total := "9.00" }

/-! ## The seven rules, as the specification words them -/

/-- Rule 1: one point per character of the retailer name that is an ASCII
letter or an ASCII digit. -/
def retailerRule (r : receipt) : Int :=
  ((r.Retailer.toList.filter isAsciiLetterOrDigit).length : Int)

/-- The total of the receipt, parsed as a floating-point number. -/
def receipt.total (r : receipt) : F64 := (ParseFloat r.Total).1

/-- A value with zero fractional part.  An infinity is its own integer part;
`NaN` has none. -/
def hasZeroFraction : F64 → Bool
  | F64.fin a => decide (Int.fract a = 0)
  | F64.inf _ => true
  | F64.nan => false

/-- A value that is an integer multiple of `0.25`. -/
def isMultipleOfQuarter : F64 → Bool
  | F64.fin a => decide (Int.fract (4 * a) = 0)
  | _ => false

/-- Rule 2: 50 points if the total has zero fractional part. -/
def roundDollarRule (r : receipt) : Int := if hasZeroFraction r.total then 50 else 0

/-- Rule 3: 25 points if the total is a multiple of `0.25`. -/
def quarterRule (r : receipt) : Int := if isMultipleOfQuarter r.total then 25 else 0

/-- Rule 4 for `n` items: `5 * floor(n / 2)` points, only when `n > 2`. -/
def itemPairBonus (n : Nat) : Int := if 2 < n then 5 * ((n / 2 : Nat) : Int) else 0

/-- Rule 4: the item-pair bonus of the receipt. -/
def itemPairRule (r : receipt) : Int := itemPairBonus r.Items.length

/-- Rule 5 fires for an item when the number of code points of its trimmed
description is a multiple of 3. -/
def descriptionFires (it : item) : Bool :=
  (TrimSpace it.ShortDescription).toList.length % 3 = 0

/-- The price of an item, parsed as a floating-point number. -/
def item.price (it : item) : F64 := (ParseFloat it.Price).1

/-- The points of an item for which Rule 5 fires: the price times `0.2`, rounded
up to the nearest integer. -/
def itemBonus (p : Platform) (it : item) : Int :=
  toInt p (Ceil (F64.mul it.price c0_2))

/-- The contribution of one item under Rule 5. -/
def itemContribution (p : Platform) (it : item) : Int :=
  if descriptionFires it then itemBonus p it else 0

/-- Rule 5 for a list of items: the sum of the points of the items for which
it fires. -/
def descriptionSum (p : Platform) (items : List item) : Int :=
  ((items.filter descriptionFires).map (itemBonus p)).sum

/-- Rule 5: the description-length points of the receipt. -/
def descriptionRule (p : Platform) (r : receipt) : Int := descriptionSum p r.Items

/-- Rule 6: 6 points if the day of the month is odd. -/
def oddDayRule (t : Time) : Int := if t.Day % 2 = 1 then 6 else 0

/-- Rule 7: 10 points if the hour is 14, 15 or 16. -/
def afternoonRule (t : Time) : Int :=
  if t.Hour = 14 ∨ t.Hour = 15 ∨ t.Hour = 16 then 10 else 0

/-- The sum of Rules 1 to 5. -/
def rulesOneToFive (p : Platform) (r : receipt) : Int :=
  retailerRule r + roundDollarRule r + quarterRule r + itemPairRule r + descriptionRule p r

/-- The purchase date and time of the receipt, parsed. -/
def receipt.purchasedAt (r : receipt) : Option Time :=
  Parse (Sprintf r.PurchaseDate r.PurchaseTime)

/-- A finite value that is not negative. -/
def isNonNegFinite : F64 → Bool
  | F64.fin a => decide (0 ≤ a)
  | _ => false

/-- A finite value whose integer part is in the range of `int`, so that Go
defines its conversion to `int`. -/
def fitsInt (p : Platform) : F64 → Bool
  | F64.fin a => decide (minInt p ≤ truncQ a ∧ truncQ a ≤ maxInt p)
  | _ => false

/-- A receipt with one item of negative price, a total that earns nothing and
no parsable date. -/
def refundReceipt : receipt :=
  { Retailer := "", PurchaseDate := "", PurchaseTime := "",
    Items := [⟨"abc", "-100"⟩], Total := "0.10" }

/-- A receipt without retailer, items or date, and the total `"Inf"`. -/
def infiniteTotalReceipt : receipt :=
  { Retailer := "", PurchaseDate := "", PurchaseTime := "", Items := [], Total := "Inf" }

/-- The sum of Rules 6 and 7, which `points` adds only when the purchase date
and time parse. -/
def timeRules (r : receipt) : Int :=
  match r.purchasedAt with
  | none => 0
  | some t => oddDayRule t + afternoonRule t

/-! ## Theorems -/

/-! ### The library models on known values -/

/-- Rounding to `float64`: the constants `0.1` and `0.2`, a tie between two
neighbours (to the even one), the largest finite value and the least value
that overflows, and the ties around the least subnormal `2^-1074`. -/
theorem roundF64_examples :
    roundF64 (1 / 10) = F64.fin (3602879701896397 / 36028797018963968) ∧
    c0_2 = F64.fin (3602879701896397 / 18014398509481984) ∧
    c0_25 = F64.fin (1 / 4) ∧
    roundF64 9007199254740993 = F64.fin 9007199254740992 ∧
    roundF64 9007199254740995 = F64.fin 9007199254740996 ∧
    roundF64 (((2 ^ 1024 - 2 ^ 970 - 1 : Nat) : ℚ)) = F64.fin (((2 ^ 1024 - 2 ^ 971 : Nat) : ℚ)) ∧
    roundF64 (((2 ^ 1024 - 2 ^ 970 : Nat) : ℚ)) = F64.inf false ∧
    roundF64 (1 / ((2 ^ 1075 : Nat) : ℚ)) = F64.fin 0 ∧
    roundF64 (3 / ((2 ^ 1075 : Nat) : ℚ)) = F64.fin (2 / ((2 ^ 1074 : Nat) : ℚ)) ∧
    roundF64 (-(1 / 3)) = F64.fin (-(6004799503160661 / 18014398509481984)) := by
  refine ⟨by decide!, by decide!, by decide!, by decide!, by decide!, by decide!,
    by decide!, by decide!, by decide!, by decide!⟩

/-- The model of `strconv.ParseFloat` on strings of the kinds the Go
documentation and tests describe: decimal and hexadecimal numbers, underscores
between digits, the special values, syntax errors and range errors. -/
theorem ParseFloat_examples :
    ParseFloat "35.35" = (F64.fin (4975070213360845 / 140737488355328), none) ∧
    ParseFloat "9.00" = (F64.fin 9, none) ∧
    ParseFloat "-.5e1" = (F64.fin (-5), none) ∧
    ParseFloat "1e23" = (F64.fin 99999999999999991611392, none) ∧
    ParseFloat "0x1p-2" = (F64.fin (1 / 4), none) ∧
    ParseFloat "1_23.50_0e+1_2" = (F64.fin 123500000000000, none) ∧
    ParseFloat "0x_1_2.3_4_5p+1_2" = (F64.fin 74565, none) ∧
    ParseFloat "1e-400" = (F64.fin 0, none) ∧
    ParseFloat "-Infinity" = (F64.inf true, none) ∧
    ParseFloat "nan" = (F64.nan, none) ∧
    ParseFloat "1e999" = (F64.inf false, some NumError.ErrRange) ∧
    ParseFloat "-1e999" = (F64.inf true, some NumError.ErrRange) ∧
    ParseFloat "1.7976931348623159e308" = (F64.inf false, some NumError.ErrRange) ∧
    ParseFloat "" = (F64.fin 0, some NumError.ErrSyntax) ∧
    ParseFloat "abc" = (F64.fin 0, some NumError.ErrSyntax) ∧
    ParseFloat "1 " = (F64.fin 0, some NumError.ErrSyntax) ∧
    ParseFloat "+nan" = (F64.fin 0, some NumError.ErrSyntax) ∧
    ParseFloat "infi" = (F64.fin 0, some NumError.ErrSyntax) ∧
    ParseFloat "1__23.5e+12" = (F64.fin 0, some NumError.ErrSyntax) ∧
    ParseFloat "0x1.8" = (F64.fin 0, some NumError.ErrSyntax) := by
  refine ⟨by decide!, by decide!, by decide!, by decide!, by decide!, by decide!,
    by decide!, by decide!, by decide!, by decide!, by decide!, by decide!, by decide!,
    by decide!, by decide!, by decide!, by decide!, by decide!, by decide!, by decide!⟩

/-- The model of `time.Parse` with the layout `2006-01-02 15:04`: the hour may
have one digit and the space of the layout stands for any run of spaces; the
other elements have a fixed width, the day must exist, nothing may follow. -/
theorem Parse_examples :
    Parse "2022-01-01 13:01" = some ⟨2022, 1, 1, 13, 1⟩ ∧
    Parse "2022-01-01   7:30" = some ⟨2022, 1, 1, 7, 30⟩ ∧
    Parse "2024-02-29 23:59" = some ⟨2024, 2, 29, 23, 59⟩ ∧
    Parse "2022-02-29 23:59" = none ∧
    Parse "2022-13-01 10:00" = none ∧
    Parse "2022-01-01 24:00" = none ∧
    Parse "2022-01-01 10:60" = none ∧
    Parse "2022-1-01 10:00" = none ∧
    Parse "2022-01-0110:00" = none ∧
    Parse "2022-01-01 10:00 " = none ∧
    Parse "2022-01-01T10:00" = none ∧
    Parse "2022-01-01 10:00:00" = none := by
  refine ⟨by decide!, by decide!, by decide!, by decide!, by decide!, by decide!,
    by decide!, by decide!, by decide!, by decide!, by decide!, by decide!⟩

/-- The scrubbing of white space and the count of code points: an item
description of the `"Target"` receipt, and characters outside ASCII. -/
theorem TrimSpace_examples :
    TrimSpace "   Klarbrunn 12-PK 12 FL OZ  " = "Klarbrunn 12-PK 12 FL OZ" ∧
    TrimSpace "\t a b \n" = "a b" ∧
    TrimSpace " \r\n" = "" ∧
    RuneCountInString "日本語" = 3 := by
  refine ⟨by decide, by decide, by decide, by decide⟩

theorem char_le_iff (a b : Char) : a ≤ b ↔ a.toNat ≤ b.toNat := Iff.rfl

theorem containsRune_alphanumeric (c : Char) :
    containsRune alphanumeric c = isAsciiLetterOrDigit c := by
  have hmem : ∀ n : Nat, n < 128 → isAsciiLetterOrDigit (Char.ofNat n) = true →
      containsRune alphanumeric (Char.ofNat n) = true := by
    decide
  have hall : ∀ d ∈ alphanumeric.toList, isAsciiLetterOrDigit d = true := by decide
  cases hc : isAsciiLetterOrDigit c with
  | true =>
    have hlt : c.toNat < 128 := by
      simp only [isAsciiLetterOrDigit, Bool.or_eq_true, Bool.and_eq_true,
        decide_eq_true_eq, char_le_iff] at hc
      have : 'a'.toNat = 97 := rfl
      have : 'z'.toNat = 122 := rfl
      have : 'A'.toNat = 65 := rfl
      have : 'Z'.toNat = 90 := rfl
      have : '0'.toNat = 48 := rfl
      have : '9'.toNat = 57 := rfl
      omega
    have := hmem c.toNat hlt (by rw [Char.ofNat_toNat]; exact hc)
    rwa [Char.ofNat_toNat] at this
  | false =>
    cases hm : containsRune alphanumeric c with
    | false => rfl
    | true =>
      have h1 : c ∈ alphanumeric.toList := by
        simpa [containsRune] using hm
      have := hall c h1
      rw [hc] at this
      cases this

theorem countAlphanumeric_foldl (l : List Char) (a : Int) :
    l.foldl (fun count v => if containsRune alphanumeric v then count + 1 else count) a
      = a + ((l.filter isAsciiLetterOrDigit).length : Int) := by
  induction l generalizing a with
  | nil => simp
  | cons c l ih =>
    rw [List.foldl_cons, ih, containsRune_alphanumeric, List.filter_cons]
    cases isAsciiLetterOrDigit c <;> simp
    omega

theorem countAlphanumeric_eq (s : String) :
    countAlphanumeric s = ((s.toList.filter isAsciiLetterOrDigit).length : Int) := by
  unfold countAlphanumeric
  rw [countAlphanumeric_foldl]
  simp

theorem countAlphanumeric_nonneg (s : String) : 0 ≤ countAlphanumeric s := by
  rw [countAlphanumeric_eq]
  exact Int.natCast_nonneg _

/-- C2: `countAlphanumeric s` is the number of code points of `s` that are an
ASCII letter or an ASCII digit; it never exceeds the number of code points of
`s`; a string of characters outside ASCII (each visited once) counts `0`; the
two strings of `Test_countAlphanumeric` count `11` and `0`, the second having
three code points. -/
theorem countAlphanumeric_counts_ascii_letters_and_digits :
    (∀ s : String,
      countAlphanumeric s = ((s.toList.filter isAsciiLetterOrDigit).length : Int) ∧
      countAlphanumeric s ≤ (s.toList.length : Int)) ∧
    (∀ s : String, (∀ c ∈ s.toList, 128 ≤ c.toNat) → countAlphanumeric s = 0) ∧
    countAlphanumeric "This is a\n test." = 11 ∧
    countAlphanumeric "日本語" = 0 ∧ "日本語".toList.length = 3 ∧
    countAlphanumeric "shouldbefine" = 12 := by
  refine ⟨fun s => ⟨countAlphanumeric_eq s, ?_⟩, ?_, by decide, by decide, by decide,
    by decide⟩
  · rw [countAlphanumeric_eq]
    exact Int.ofNat_le.mpr (List.length_filter_le _ _)
  · intro s hs
    rw [countAlphanumeric_eq]
    have : s.toList.filter isAsciiLetterOrDigit = [] := by
      rw [List.filter_eq_nil_iff]
      intro c hc
      have h128 := hs c hc
      simp only [isAsciiLetterOrDigit, Bool.or_eq_true, Bool.and_eq_true,
        decide_eq_true_eq, char_le_iff]
      have : 'z'.toNat = 122 := rfl
      have : 'Z'.toNat = 90 := rfl
      have : '9'.toNat = 57 := rfl
      omega
    rw [this]
    rfl

/-- C10: `countAlphanumeric` gives the same count for a string and for any
reordering of its code points, and inserting a run of characters that holds
no ASCII letter or digit at any position leaves the count unchanged. -/
theorem countAlphanumeric_invariant (s t a sep b : String)
    (hperm : s.toList.Perm t.toList)
    (hsep : ∀ c ∈ sep.toList, isAsciiLetterOrDigit c = false) :
    countAlphanumeric t = countAlphanumeric s ∧
    countAlphanumeric (a ++ sep ++ b) = countAlphanumeric (a ++ b) := by
  constructor
  · rw [countAlphanumeric_eq, countAlphanumeric_eq]
    exact congrArg _ (hperm.symm.filter _).length_eq
  · rw [countAlphanumeric_eq, countAlphanumeric_eq]
    have : sep.toList.filter isAsciiLetterOrDigit = [] := by
      rw [List.filter_eq_nil_iff]
      intro c hc
      simp [hsep c hc]
    simp only [String.toList, String.data_append, List.filter_append] at this ⊢
    rw [this, List.append_nil]

/-- C10 at concrete strings: `"1ba"` reorders `"ab1"`, and `"&"` is inserted
between `"M"` and `"M"`. -/
theorem countAlphanumeric_invariant_witness :
    "ab1".toList.Perm "1ba".toList ∧
    (∀ c ∈ "&".toList, isAsciiLetterOrDigit c = false) ∧
    countAlphanumeric "1ba" = countAlphanumeric "ab1" ∧
    countAlphanumeric ("M" ++ "&" ++ "M") = countAlphanumeric ("M" ++ "M") :=
  ⟨by decide, by decide,
    countAlphanumeric_invariant "ab1" "1ba" "M" "&" "M" (by decide) (by decide)⟩

/-! ### Go `int` arithmetic -/

theorem wrap_add_wrap_left (p : Platform) (a b : Int) :
    wrap p (wrap p a + b) = wrap p (a + b) := by
  unfold wrap
  exact Int.bmod_add_bmod_congr

theorem wrap_add_wrap_right (p : Platform) (a b : Int) :
    wrap p (a + wrap p b) = wrap p (a + b) := by
  unfold wrap
  exact Int.add_bmod_bmod

theorem wrap_wrap (p : Platform) (a : Int) : wrap p (wrap p a) = wrap p a := by
  unfold wrap
  exact Int.bmod_bmod

theorem wrap_step (p : Platform) (a k : Int) (c : Prop) [Decidable c] :
    (if c then addInt p (wrap p a) k else wrap p a) = wrap p (a + (if c then k else 0)) := by
  by_cases h : c
  · simp only [h, if_true, addInt, wrap_add_wrap_left]
  · simp only [h, if_false, Int.add_zero]

/-! ### The tests of `points` on the total -/

theorem fract_eq_zero_iff_floor (a : ℚ) : Int.fract a = 0 ↔ a = ((⌊a⌋ : Int) : ℚ) := by
  rw [Int.fract]
  constructor
  · intro h; linarith
  · intro h; linarith

theorem eq_truncQ_iff (a : ℚ) : a = ((truncQ a : Int) : ℚ) ↔ Int.fract a = 0 := by
  rw [fract_eq_zero_iff_floor]
  constructor
  · intro h
    obtain ⟨k, rfl⟩ : ∃ k : Int, a = (k : ℚ) := ⟨_, h⟩
    simp
  · intro h
    obtain ⟨k, rfl⟩ : ∃ k : Int, a = (k : ℚ) := ⟨_, h⟩
    unfold truncQ
    split <;> simp

theorem eq_Trunc_iff (x : F64) : F64.eq x (Trunc x) = hasZeroFraction x := by
  cases x with
  | nan => rfl
  | inf b => simp [Trunc, F64.eq, hasZeroFraction]
  | fin a =>
    simp only [Trunc, F64.eq, hasZeroFraction]
    exact decide_eq_decide.mpr (eq_truncQ_iff a)

theorem c0_25_eq : c0_25 = F64.fin (1 / 4) := by decide!

theorem Mod_quarter_eq_zero_iff (x : F64) :
    F64.eq (Mod x c0_25) c0 = isMultipleOfQuarter x := by
  rw [c0_25_eq]
  cases x with
  | nan => rfl
  | inf b => rfl
  | fin a =>
    have h4 : ((1 : ℚ) / 4 = 0) = False := by norm_num
    simp only [Mod, h4, if_false, F64.eq, c0, isMultipleOfQuarter]
    apply decide_eq_decide.mpr
    have e : a / (1 / 4) = 4 * a := by ring
    rw [e, ← eq_truncQ_iff (4 * a)]
    constructor
    · intro h; linarith
    · intro h; linarith

/-! ### The loop over the items -/

theorem itemStep_wrap (p : Platform) (a : Int) (it : item) :
    itemStep p (wrap p a) it = wrap p (a + itemContribution p it) := by
  unfold itemStep itemContribution descriptionFires RuneCountInString
  simp only []
  by_cases h : (TrimSpace it.ShortDescription).toList.length % 3 = 0
  · have h2 : ((TrimSpace it.ShortDescription).toList.length : Int) % 3 = 0 := by omega
    rw [if_pos h2, if_pos (decide_eq_true h)]
    simp only [addInt, wrap_add_wrap_left, itemBonus, item.price]
  · have h2 : ¬ ((TrimSpace it.ShortDescription).toList.length : Int) % 3 = 0 := by omega
    rw [if_neg h2, if_neg (by simpa using h), Int.add_zero]

theorem descriptionSum_cons (p : Platform) (it : item) (items : List item) :
    descriptionSum p (it :: items) = itemContribution p it + descriptionSum p items := by
  unfold descriptionSum itemContribution
  rw [List.filter_cons]
  cases descriptionFires it <;> simp

theorem foldl_itemStep (p : Platform) (items : List item) (a : Int) :
    items.foldl (itemStep p) (wrap p a) = wrap p (a + descriptionSum p items) := by
  induction items generalizing a with
  | nil => simp [descriptionSum]
  | cons it items ih =>
    rw [List.foldl_cons, itemStep_wrap, ih, descriptionSum_cons, Int.add_assoc]

/-! ### The score as a sum -/

theorem points_before_time (p : Platform) (r : receipt) :
    r.points p =
      match r.purchasedAt with
      | none => wrap p (rulesOneToFive p r)
      | some t => wrap p (rulesOneToFive p r + oddDayRule t + afternoonRule t) := by
  have h1 : addInt p 0 (countAlphanumeric r.Retailer) = wrap p (retailerRule r) := by
    simp [addInt, countAlphanumeric_eq, retailerRule]
  have h4 : ∀ a : Int,
      (if ((r.Items.length : Int) > 2) then
        addInt p (wrap p a) (wrap p ((r.Items.length : Int) / 2 * 5)) else wrap p a)
        = wrap p (a + itemPairRule r) := by
    intro a
    unfold itemPairRule itemPairBonus
    by_cases h : 2 < r.Items.length
    · have h2 : (r.Items.length : Int) > 2 := by omega
      have h3 : (r.Items.length : Int) / 2 * 5 = 5 * ((r.Items.length / 2 : Nat) : Int) := by
        omega
      simp only [h, h2, if_true, addInt, wrap_add_wrap_left, wrap_add_wrap_right, h3]
    · have h2 : ¬ (r.Items.length : Int) > 2 := by omega
      simp only [h, h2, if_false, Int.add_zero]
  have h6 : ∀ (a : Int) (t : Time),
      (if t.Day % 2 ≠ 0 then addInt p (wrap p a) 6 else wrap p a)
        = wrap p (a + oddDayRule t) := by
    intro a t
    rw [wrap_step]
    unfold oddDayRule
    by_cases h : t.Day % 2 = 1
    · have : t.Day % 2 ≠ 0 := by omega
      simp [h, this]
    · have : ¬ t.Day % 2 ≠ 0 := by omega
      simp [h, this]
  have h7 : ∀ (a : Int) (t : Time),
      (if t.Hour ≥ 14 ∧ t.Hour ≤ 16 then addInt p (wrap p a) 10 else wrap p a)
        = wrap p (a + afternoonRule t) := by
    intro a t
    rw [wrap_step]
    unfold afternoonRule
    by_cases h : t.Hour = 14 ∨ t.Hour = 15 ∨ t.Hour = 16
    · have : t.Hour ≥ 14 ∧ t.Hour ≤ 16 := by omega
      simp [h, this]
    · have : ¬ (t.Hour ≥ 14 ∧ t.Hour ≤ 16) := by omega
      simp [h, this]
  unfold receipt.points receipt.purchasedAt
  simp only [h1, eq_Trunc_iff, Mod_quarter_eq_zero_iff]
  rw [wrap_step, wrap_step, h4, foldl_itemStep]
  have e : retailerRule r + (if hasZeroFraction (ParseFloat r.Total).1 = true then 50 else 0)
      + (if isMultipleOfQuarter (ParseFloat r.Total).1 = true then 25 else 0)
      + itemPairRule r + descriptionSum p r.Items = rulesOneToFive p r := by
    simp [rulesOneToFive, roundDollarRule, quarterRule, descriptionRule, receipt.total]
  rw [e]
  cases Parse (Sprintf r.PurchaseDate r.PurchaseTime) with
  | none => rfl
  | some t =>
    simp only []
    rw [h6, h7]

theorem points_eq_wrap (p : Platform) (r : receipt) :
    r.points p = wrap p (rulesOneToFive p r + timeRules r) := by
  rw [points_before_time]
  unfold timeRules
  cases r.purchasedAt with
  | none => simp
  | some t => simp only [Int.add_assoc]

theorem timeRules_bounds (r : receipt) : 0 ≤ timeRules r ∧ timeRules r ≤ 16 := by
  unfold timeRules
  cases r.purchasedAt with
  | none => simp
  | some t =>
    simp only []
    unfold oddDayRule afternoonRule
    split <;> split <;> decide

theorem intBits_cases (p : Platform) : p.intBits = 32 ∨ p.intBits = 64 := by
  unfold Platform.intBits
  cases p.intSize <;> simp

theorem wrap_of_fits (p : Platform) (x : Int) (h1 : minInt p ≤ x) (h2 : x ≤ maxInt p) :
    wrap p x = x := by
  unfold wrap
  unfold minInt at h1
  unfold maxInt at h2
  rw [Int.bmod_def]
  rcases intBits_cases p with h | h <;> rw [h] at h1 h2 ⊢ <;> norm_num at h1 h2 ⊢ <;> omega

theorem subInt_wrap (p : Platform) (x y : Int) :
    subInt p (wrap p x) (wrap p y) = wrap p (x - y) := by
  unfold subInt wrap
  rw [Int.sub_bmod_bmod, Int.bmod_sub_bmod_congr]

/-- C1: for a receipt whose purchase date and time parse, `points` is the sum,
in Go `int` arithmetic, of the seven rule contributions: the count of ASCII
letters and digits of the retailer, 50 for a total without fractional part, 25
for a total that is a multiple of 0.25, `5 * floor(n/2)` for `n > 2` items, for
each item whose trimmed description length is a multiple of 3 its price times
0.2 (a `float64` product) rounded up to an integer, 6 for an odd day and 10 for
an hour of 14, 15 or 16; when the sum fits in an `int` the score is that sum. -/
theorem points_is_sum_of_seven_rules (p : Platform) (r : receipt) (t : Time)
    (h : r.purchasedAt = some t) :
    r.points p =
      wrap p (retailerRule r + roundDollarRule r + quarterRule r + itemPairRule r +
        descriptionRule p r + oddDayRule t + afternoonRule t) ∧
    (minInt p ≤ retailerRule r + roundDollarRule r + quarterRule r + itemPairRule r +
        descriptionRule p r + oddDayRule t + afternoonRule t →
      retailerRule r + roundDollarRule r + quarterRule r + itemPairRule r +
        descriptionRule p r + oddDayRule t + afternoonRule t ≤ maxInt p →
      r.points p = retailerRule r + roundDollarRule r + quarterRule r + itemPairRule r +
        descriptionRule p r + oddDayRule t + afternoonRule t) := by
  have e := points_before_time p r
  rw [h] at e
  simp only [rulesOneToFive] at e
  refine ⟨e, fun h1 h2 => ?_⟩
  rw [e, wrap_of_fits p _ h1 h2]

/-- C1 at the two receipts of `Test_receipt_points`: both timestamps parse,
the `"Target"` receipt scores 28 and the `"M&M Corner Market"` receipt 109. -/
theorem points_is_sum_of_seven_rules_witness :
    targetReceipt.purchasedAt = some ⟨2022, 1, 1, 13, 1⟩ ∧
    cornerMarketReceipt.purchasedAt = some ⟨2022, 3, 20, 14, 33⟩ ∧
    targetReceipt.points amd64 = 28 ∧ cornerMarketReceipt.points amd64 = 109 :=
  ⟨by decide!, by decide!,
    (points_is_sum_of_seven_rules amd64 targetReceipt ⟨2022, 1, 1, 13, 1⟩
      (by decide!)).1.trans (by decide!),
    (points_is_sum_of_seven_rules amd64 cornerMarketReceipt ⟨2022, 3, 20, 14, 33⟩
      (by decide!)).1.trans (by decide!)⟩

theorem descriptionSum_eq_zero (p : Platform) (items : List item)
    (h : ∀ it ∈ items, itemContribution p it = 0) : descriptionSum p items = 0 := by
  induction items with
  | nil => rfl
  | cons it items ih =>
    rw [descriptionSum_cons, h it (List.mem_cons_self _ _),
      ih (fun x hx => h x (List.mem_cons_of_mem _ hx))]
    rfl

theorem minInt_nonpos (p : Platform) : minInt p ≤ 0 := by
  unfold minInt
  have : (0 : Int) ≤ 2 ^ (p.intBits - 1) := by positivity
  omega

theorem maxInt_ge (p : Platform) : 2147483647 ≤ maxInt p := by
  unfold maxInt
  rcases intBits_cases p with hw | hw <;> rw [hw] <;> norm_num

theorem retailerRule_nonneg (r : receipt) : 0 ≤ retailerRule r := by
  unfold retailerRule
  exact Int.natCast_nonneg _

theorem roundDollarRule_nonneg (r : receipt) : 0 ≤ roundDollarRule r := by
  unfold roundDollarRule
  split <;> decide

theorem quarterRule_nonneg (r : receipt) : 0 ≤ quarterRule r := by
  unfold quarterRule
  split <;> decide

theorem itemPairBonus_nonneg (n : Nat) : 0 ≤ itemPairBonus n := by
  unfold itemPairBonus
  split
  · omega
  · decide

theorem itemPairBonus_eq (n : Nat) :
    itemPairBonus n = if n ≤ 2 then 0 else 5 * ((n / 2 : Nat) : Int) := by
  unfold itemPairBonus
  by_cases h : 2 < n
  · rw [if_pos h, if_neg (by omega)]
  · rw [if_neg h, if_pos (by omega)]

/-- C3: for a receipt `r` and a list of `n` items none of which earns points
under the description-length rule, the score with these items minus the score
without items is `0` when `n ≤ 2` and `5 * floor(n/2)` when `n > 2`: always so
in Go `int` arithmetic, and as a difference of integers whenever the score
with the items is a sum that does not wrap around. -/
theorem item_pair_rule (p : Platform) (r : receipt) (items : List item)
    (hno : ∀ it ∈ items, itemContribution p it = 0) :
    subInt p (({ r with Items := items } : receipt).points p)
        (({ r with Items := [] } : receipt).points p)
      = wrap p (if items.length ≤ 2 then 0 else 5 * ((items.length / 2 : Nat) : Int)) ∧
    (rulesOneToFive p { r with Items := items } + 16 ≤ maxInt p →
      ({ r with Items := items } : receipt).points p
          - ({ r with Items := [] } : receipt).points p
        = (if items.length ≤ 2 then 0 else 5 * ((items.length / 2 : Nat) : Int))) := by
  have e1 : rulesOneToFive p { r with Items := items }
      = rulesOneToFive p { r with Items := [] } + itemPairBonus items.length := by
    simp only [rulesOneToFive, retailerRule, roundDollarRule, quarterRule, itemPairRule,
      descriptionRule, receipt.total, descriptionSum_eq_zero p items hno]
    simp [itemPairBonus, descriptionSum]
  have e2 : timeRules { r with Items := items } = timeRules { r with Items := [] } := rfl
  have h0 : 0 ≤ rulesOneToFive p { r with Items := [] } := by
    have h1 := retailerRule_nonneg { r with Items := [] }
    have h2 := roundDollarRule_nonneg { r with Items := [] }
    have h3 := quarterRule_nonneg { r with Items := [] }
    have h4 : itemPairRule { r with Items := [] } = 0 := rfl
    have h5 : descriptionRule p { r with Items := [] } = 0 := rfl
    unfold rulesOneToFive
    omega
  rw [points_eq_wrap p { r with Items := items }, points_eq_wrap p { r with Items := [] },
    e1, e2, ← itemPairBonus_eq]
  constructor
  · rw [subInt_wrap]
    congr 1
    omega
  · intro hfit
    have hb := itemPairBonus_nonneg items.length
    have ht := timeRules_bounds { r with Items := [] }
    have hmin := minInt_nonpos p
    rw [wrap_of_fits p _ (by omega) (by omega), wrap_of_fits p _ (by omega) (by omega)]
    omega

/-- C3 for 0 to 5 items `"ab"` at `"1.00"` (trimmed length 2) on the `"Target"`
receipt: the item-pair points are 0, 0, 0, 5, 10, 10. -/
theorem item_pair_rule_witness :
    (∀ n, ∀ it ∈ List.replicate n (⟨"ab", "1.00"⟩ : item), itemContribution amd64 it = 0) ∧
    (List.range 6).map (fun n =>
      subInt amd64
        (({ targetReceipt with Items := List.replicate n ⟨"ab", "1.00"⟩ } : receipt).points amd64)
        (({ targetReceipt with Items := [] } : receipt).points amd64))
      = [0, 0, 0, 5, 10, 10] := by
  have hno : ∀ n, ∀ it ∈ List.replicate n (⟨"ab", "1.00"⟩ : item),
      itemContribution amd64 it = 0 := by
    intro n it hit
    rw [List.eq_of_mem_replicate hit]
    decide
  refine ⟨hno, ?_⟩
  have h := fun n => (item_pair_rule amd64 targetReceipt (List.replicate n ⟨"ab", "1.00"⟩)
    (hno n)).1
  simp only [List.range, List.range.loop, List.map]
  rw [h 0, h 1, h 2, h 3, h 4, h 5]
  decide!

/-- C5: when the combined purchase date and time do not parse (a malformed
date, a malformed time, or both), `points` returns the sum of Rules 1 to 5 (as
a Go `int`): Rules 6 and 7 are skipped, and the score is that of the same
receipt dated `2022-01-02 00:00`, an even day outside the afternoon. -/
theorem points_of_unparsed_time (p : Platform) (r : receipt)
    (h : r.purchasedAt = none) :
    r.points p = wrap p (rulesOneToFive p r) ∧
    r.points p =
      ({ r with PurchaseDate := "2022-01-02", PurchaseTime := "00:00" } : receipt).points p := by
  have e := points_before_time p r
  rw [h] at e
  refine ⟨e, ?_⟩
  rw [e, points_before_time p { r with PurchaseDate := "2022-01-02", PurchaseTime := "00:00" }]
  have ht : ({ r with PurchaseDate := "2022-01-02", PurchaseTime := "00:00" } :
      receipt).purchasedAt = some ⟨2022, 1, 2, 0, 0⟩ := by
    show Parse (Sprintf "2022-01-02" "00:00") = some ⟨2022, 1, 2, 0, 0⟩
    decide!
  rw [ht]
  simp only []
  have h6 : oddDayRule ⟨2022, 1, 2, 0, 0⟩ = 0 := by decide
  have h7 : afternoonRule ⟨2022, 1, 2, 0, 0⟩ = 0 := by decide
  rw [h6, h7]
  simp only [Int.add_zero]
  rfl

/-- C5 at the `"Target"` receipt with a malformed date (`01/01/2022`), with a
malformed time (`1pm`), and with both: none parses, and each scores the 22
points of Rules 1 to 5 (28 less the 6 of the odd day). -/
theorem points_of_unparsed_time_witness :
    ({ targetReceipt with PurchaseDate := "01/01/2022" } : receipt).purchasedAt = none ∧
    ({ targetReceipt with PurchaseTime := "1pm" } : receipt).purchasedAt = none ∧
    ({ targetReceipt with PurchaseDate := "", PurchaseTime := "" } : receipt).purchasedAt
      = none ∧
    ({ targetReceipt with PurchaseDate := "01/01/2022" } : receipt).points amd64 = 22 ∧
    ({ targetReceipt with PurchaseTime := "1pm" } : receipt).points amd64 = 22 ∧
    ({ targetReceipt with PurchaseDate := "", PurchaseTime := "" } : receipt).points amd64
      = 22 :=
  ⟨by decide!, by decide!, by decide!,
    (points_of_unparsed_time amd64 { targetReceipt with PurchaseDate := "01/01/2022" }
      (by decide!)).2.trans (by decide!),
    (points_of_unparsed_time amd64 { targetReceipt with PurchaseTime := "1pm" }
      (by decide!)).2.trans (by decide!),
    (points_of_unparsed_time amd64
      { targetReceipt with PurchaseDate := "", PurchaseTime := "" }
      (by decide!)).2.trans (by decide!)⟩

theorem ParseFloat_of_ErrSyntax (s : String)
    (h : (ParseFloat s).2 = some NumError.ErrSyntax) : (ParseFloat s).1 = F64.fin 0 := by
  unfold ParseFloat at h ⊢
  cases hsp : special s.toList with
  | some fr =>
    obtain ⟨f, rest⟩ := fr
    simp only [hsp] at h ⊢
    by_cases hr : rest = []
    · simp [hr] at h
    · simp [hr]
  | none =>
    simp only [hsp] at h ⊢
    cases hrf : readFloat s.toList with
    | none => simp
    | some xr =>
      obtain ⟨x, rest⟩ := xr
      simp only [hrf] at h ⊢
      by_cases hr : rest = []
      · simp only [hr, ne_eq, not_true_eq_false, if_false] at h ⊢
        cases hround : roundF64 x.value <;> simp [hround] at h
      · simp [hr]

theorem ParseFloat_zero : ParseFloat "0.00" = (F64.fin 0, none) := by decide!

/-- C6, refuted: the totals `"NaN"` and `"Infinity"` are no numerals, yet
`strconv.ParseFloat` accepts them without error, as the values `NaN` and
`+Inf`, and `points` does not read them as zero: `NaN` passes neither the test
of the round-dollar rule nor that of the quarter-multiple rule, `+Inf` only the
first.  The `"Target"` receipt scores 28 with the total `"NaN"` and 78 with
`"Infinity"`, against 103 with `"0.00"`. -/
theorem points_of_non_numeric_total_accepted :
    ParseFloat "NaN" = (F64.nan, none) ∧
    ParseFloat "Infinity" = (F64.inf false, none) ∧
    roundDollarRule { targetReceipt with Total := "NaN" } = 0 ∧
    quarterRule { targetReceipt with Total := "NaN" } = 0 ∧
    ({ targetReceipt with Total := "NaN" } : receipt).points amd64 = 28 ∧
    ({ targetReceipt with Total := "Infinity" } : receipt).points amd64 = 78 ∧
    ({ targetReceipt with Total := "0.00" } : receipt).points amd64 = 103 ∧
    ¬ (({ targetReceipt with Total := "NaN" } : receipt).points amd64
      = ({ targetReceipt with Total := "0.00" } : receipt).points amd64) := by
  refine ⟨by decide!, by decide!, by decide!, by decide!, by decide!, by decide!,
    by decide!, by decide!⟩

/-- C6, amended: when `strconv.ParseFloat` rejects the total as not a number
(it reports a syntax error), `points` equals `points` of the same receipt with
total `"0.00"`: the total is read as zero, so the round-dollar rule gives 50
and the quarter-multiple rule 25, and no other rule depends on the total. -/
theorem points_of_malformed_total (p : Platform) (r : receipt)
    (h : (ParseFloat r.Total).2 = some NumError.ErrSyntax) :
    r.points p = ({ r with Total := "0.00" } : receipt).points p ∧
    r.total = F64.fin 0 ∧ roundDollarRule r = 50 ∧ quarterRule r = 25 := by
  have ht : r.total = F64.fin 0 := ParseFloat_of_ErrSyntax r.Total h
  have ht0 : ({ r with Total := "0.00" } : receipt).total = F64.fin 0 := by
    unfold receipt.total
    rw [ParseFloat_zero]
  have h2 : roundDollarRule r = 50 := by
    unfold roundDollarRule
    rw [ht]
    decide!
  have h3 : quarterRule r = 25 := by
    unfold quarterRule
    rw [ht]
    decide!
  refine ⟨?_, ht, h2, h3⟩
  rw [points_before_time p r, points_before_time p { r with Total := "0.00" }]
  have e : rulesOneToFive p { r with Total := "0.00" } = rulesOneToFive p r := by
    simp only [rulesOneToFive, roundDollarRule, quarterRule, ht, ht0]
    rfl
  rw [e]
  rfl

/-- C6 amended, at the `"Target"` receipt with the totals `"abc"`, `""` and `"12,50"`:
each is a syntax error, and each scores 103 = 28 + 50 + 25, as `"0.00"` does. -/
theorem points_of_malformed_total_witness :
    (ParseFloat "abc").2 = some NumError.ErrSyntax ∧
    (ParseFloat "").2 = some NumError.ErrSyntax ∧
    (ParseFloat "12,50").2 = some NumError.ErrSyntax ∧
    ({ targetReceipt with Total := "abc" } : receipt).points amd64 = 103 ∧
    ({ targetReceipt with Total := "" } : receipt).points amd64 = 103 ∧
    ({ targetReceipt with Total := "12,50" } : receipt).points amd64 = 103 ∧
    ({ targetReceipt with Total := "0.00" } : receipt).points amd64 = 103 :=
  ⟨by decide!, by decide!, by decide!,
    (points_of_malformed_total amd64 { targetReceipt with Total := "abc" }
      (by decide!)).1.trans (by decide!),
    (points_of_malformed_total amd64 { targetReceipt with Total := "" }
      (by decide!)).1.trans (by decide!),
    (points_of_malformed_total amd64 { targetReceipt with Total := "12,50" }
      (by decide!)).1.trans (by decide!),
    by decide!⟩

/-- C9, refuted: the total `"Inf"` parses (without error) to an infinity, which
passes the test of Rule 2 and fails the test of Rule 3, so Rules 2 and 3
together give exactly 50; this receipt has nothing else and scores 50. -/
theorem round_dollar_without_quarter_multiple :
    ParseFloat "Inf" = (F64.inf false, none) ∧
    roundDollarRule infiniteTotalReceipt = 50 ∧
    quarterRule infiniteTotalReceipt = 0 ∧
    infiniteTotalReceipt.points amd64 = 50 ∧
    ({ infiniteTotalReceipt with Total := "1e999" } : receipt).points amd64 = 50 := by
  refine ⟨by decide!, by decide!, by decide!, by decide!, by decide!⟩

/-- C9, amended: for a receipt whose total does not parse to an infinity, a
total without fractional part is also a multiple of 0.25 (in the tests of
`points`: `total == math.Trunc(total)` implies `math.Mod(total, 0.25) == 0`),
Rules 2 and 3 then give 75 together, and their combined contribution is 0, 25
or 75, never 50. -/
theorem round_dollar_implies_quarter_multiple (r : receipt)
    (h : ∀ b, (ParseFloat r.Total).1 ≠ F64.inf b) :
    (F64.eq (ParseFloat r.Total).1 (Trunc (ParseFloat r.Total).1) = true →
      F64.eq (Mod (ParseFloat r.Total).1 c0_25) c0 = true) ∧
    (roundDollarRule r = 50 → roundDollarRule r + quarterRule r = 75) ∧
    (roundDollarRule r + quarterRule r = 0 ∨ roundDollarRule r + quarterRule r = 25 ∨
      roundDollarRule r + quarterRule r = 75) ∧
    roundDollarRule r + quarterRule r ≠ 50 := by
  have key : hasZeroFraction (ParseFloat r.Total).1 = true →
      isMultipleOfQuarter (ParseFloat r.Total).1 = true := by
    cases ht : (ParseFloat r.Total).1 with
    | nan => simp [hasZeroFraction]
    | inf b => exact absurd ht (h b)
    | fin a =>
      simp only [hasZeroFraction, isMultipleOfQuarter, decide_eq_true_eq]
      intro hz
      rw [fract_eq_zero_iff_floor] at hz
      rw [hz]
      have : (4 : ℚ) * ((⌊a⌋ : Int) : ℚ) = ((4 * ⌊a⌋ : Int) : ℚ) := by push_cast; ring
      rw [this]
      exact Int.fract_intCast _
  rw [eq_Trunc_iff, Mod_quarter_eq_zero_iff]
  unfold roundDollarRule quarterRule receipt.total
  refine ⟨key, ?_, ?_, ?_⟩
  · intro h50
    by_cases hz : hasZeroFraction (ParseFloat r.Total).1 = true
    · rw [if_pos hz, if_pos (key hz)]
      rfl
    · rw [if_neg hz] at h50
      omega
  · by_cases hz : hasZeroFraction (ParseFloat r.Total).1 = true
    · rw [if_pos hz, if_pos (key hz)]
      right; right; rfl
    · rw [if_neg hz]
      by_cases hq : isMultipleOfQuarter (ParseFloat r.Total).1 = true
      · rw [if_pos hq]
        right; left; rfl
      · rw [if_neg hq]
        left; rfl
  · by_cases hz : hasZeroFraction (ParseFloat r.Total).1 = true
    · rw [if_pos hz, if_pos (key hz)]
      decide
    · rw [if_neg hz]
      by_cases hq : isMultipleOfQuarter (ParseFloat r.Total).1 = true
      · rw [if_pos hq]
        decide
      · rw [if_neg hq]
        decide

/-- C9 amended, at the `"M&M Corner Market"` receipt: the total `"9.00"` is
finite and Rules 2 and 3 give 75 together. -/
theorem round_dollar_implies_quarter_multiple_witness :
    (∀ b, (ParseFloat cornerMarketReceipt.Total).1 ≠ F64.inf b) ∧
    roundDollarRule cornerMarketReceipt = 50 ∧
    roundDollarRule cornerMarketReceipt + quarterRule cornerMarketReceipt = 75 := by
  have hfin : ∀ b, (ParseFloat cornerMarketReceipt.Total).1 ≠ F64.inf b := by
    have e : (ParseFloat cornerMarketReceipt.Total).1 = F64.fin 9 := by decide!
    intro b
    rw [e]
    exact fun hx => F64.noConfusion hx
  have h50 : roundDollarRule cornerMarketReceipt = 50 := by decide!
  exact ⟨hfin, h50,
    (round_dollar_implies_quarter_multiple cornerMarketReceipt hfin).2.1 h50⟩

/-! ### The sign of the score -/

theorem pow2_pos (e : Int) : 0 < pow2 e := by
  unfold pow2
  split <;> positivity

theorem roundF64_of_nonneg (q : ℚ) (h : 0 ≤ q) :
    roundF64 q = F64.inf false ∨ ∃ v : ℚ, 0 ≤ v ∧ roundF64 q = F64.fin v := by
  unfold roundF64
  by_cases h0 : q = 0
  · exact Or.inr ⟨0, le_refl _, by rw [if_pos h0]⟩
  · have hlt : ¬ q < 0 := not_lt.mpr h
    rw [if_neg h0]
    simp only [hlt, decide_False, if_false]
    split
    · exact Or.inl rfl
    · refine Or.inr ⟨_, ?_, rfl⟩
      have := pow2_pos (max (floorLog2 |q|.num.toNat |q|.den - 52) (-1074))
      positivity

theorem c0_2_eq : c0_2 = F64.fin (3602879701896397 / 18014398509481984) := by decide!

theorem itemBonus_nonneg (p : Platform) (it : item)
    (hprice : isNonNegFinite it.price = true)
    (hconv : fitsInt p (Ceil (F64.mul it.price c0_2)) = true) : 0 ≤ itemBonus p it := by
  unfold itemBonus
  cases hp : it.price with
  | nan => simp [hp, isNonNegFinite] at hprice
  | inf b => simp [hp, isNonNegFinite] at hprice
  | fin q =>
    rw [hp] at hprice hconv
    simp only [isNonNegFinite, decide_eq_true_eq] at hprice
    rw [c0_2_eq] at hconv ⊢
    simp only [F64.mul] at hconv ⊢
    have hq : 0 ≤ q * (3602879701896397 / 18014398509481984) := by positivity
    rcases roundF64_of_nonneg _ hq with hinf | ⟨v, hv, hfin⟩
    · rw [hinf] at hconv
      simp [Ceil, fitsInt] at hconv
    · rw [hfin] at hconv ⊢
      simp only [Ceil, fitsInt, decide_eq_true_eq] at hconv
      simp only [Ceil, toInt]
      rw [if_pos hconv]
      unfold truncQ
      have hc : (0 : ℚ) ≤ ((⌈v⌉ : Int) : ℚ) := by
        exact_mod_cast Int.ceil_nonneg hv
      rw [if_pos hc]
      simpa using Int.ceil_nonneg hv

theorem descriptionSum_nonneg (p : Platform) (items : List item)
    (h : ∀ it ∈ items, descriptionFires it = true → 0 ≤ itemBonus p it) :
    0 ≤ descriptionSum p items := by
  induction items with
  | nil => simp [descriptionSum]
  | cons it items ih =>
    rw [descriptionSum_cons]
    have h1 : 0 ≤ itemContribution p it := by
      unfold itemContribution
      by_cases hf : descriptionFires it = true
      · rw [if_pos hf]
        exact h it (List.mem_cons_self _ _) hf
      · rw [if_neg hf]
    have h2 := ih (fun x hx => h x (List.mem_cons_of_mem _ hx))
    omega

theorem itemPairRule_nonneg (r : receipt) : 0 ≤ itemPairRule r := by
  unfold itemPairRule itemPairBonus
  split
  · omega
  · decide

theorem oddDayRule_bounds (t : Time) : 0 ≤ oddDayRule t ∧ oddDayRule t ≤ 6 := by
  unfold oddDayRule
  split <;> decide

theorem afternoonRule_bounds (t : Time) : 0 ≤ afternoonRule t ∧ afternoonRule t ≤ 10 := by
  unfold afternoonRule
  split <;> decide

/-- C7, refuted: an item of negative price whose rule fires takes points away.
The receipt has the single item `"abc"` at `"-100"` and nothing else that
scores: its score is `ceil(-100 * 0.2) = -20`.  Prices that are not negative
can give a negative score as well: on amd64 the price `"Inf"` converts to the
least `int`, and six items at `"9e18"` make the sum wrap around. -/
theorem points_negative_for_negative_price :
    refundReceipt.points amd64 = -20 ∧ refundReceipt.points arm64 = -20 ∧
    ¬ (0 ≤ refundReceipt.points amd64) ∧
    ({ refundReceipt with Items := [⟨"abc", "Inf"⟩] } : receipt).points amd64
      = -9223372036854775808 ∧
    ({ refundReceipt with Items := List.replicate 6 ⟨"abc", "9e18"⟩ } : receipt).points amd64
      = -7646744073709551601 := by
  refine ⟨by decide!, by decide!, by decide!, by decide!, by decide!⟩

/-- C7, amended: `points` is not negative when every item for which the
description-length rule fires has a price that parses to a finite value that
is not negative and whose product with 0.2, rounded up, fits in an `int`, and
the sum of Rules 1 to 5 with the 16 points that Rules 6 and 7 can add does not
exceed the largest `int` (no wrap-around). -/
theorem points_nonneg (p : Platform) (r : receipt)
    (hprice : ∀ it ∈ r.Items, descriptionFires it = true → isNonNegFinite it.price = true)
    (hconv : ∀ it ∈ r.Items, descriptionFires it = true →
      fitsInt p (Ceil (F64.mul it.price c0_2)) = true)
    (hsum : rulesOneToFive p r + 16 ≤ maxInt p) :
    0 ≤ r.points p := by
  have h5 : 0 ≤ descriptionRule p r :=
    descriptionSum_nonneg p r.Items
      (fun it hit hf => itemBonus_nonneg p it (hprice it hit hf) (hconv it hit hf))
  have h15 : 0 ≤ rulesOneToFive p r := by
    unfold rulesOneToFive
    have h1 := retailerRule_nonneg r
    have h2 := roundDollarRule_nonneg r
    have h3 := quarterRule_nonneg r
    have h4 := itemPairRule_nonneg r
    omega
  have hmin := minInt_nonpos p
  rw [points_before_time]
  cases r.purchasedAt with
  | none =>
    simp only []
    rw [wrap_of_fits p _ (by omega) (by omega)]
    exact h15
  | some t =>
    simp only []
    have h6 := oddDayRule_bounds t
    have h7 := afternoonRule_bounds t
    rw [wrap_of_fits p _ (by omega) (by omega)]
    omega

/-- C7 amended, at the `"Target"` receipt: its two scoring items have the
prices `12.25` and `12.00`, and the score 28 is not negative. -/
theorem points_nonneg_witness :
    (∀ it ∈ targetReceipt.Items, descriptionFires it = true →
      isNonNegFinite it.price = true) ∧
    (∀ it ∈ targetReceipt.Items, descriptionFires it = true →
      fitsInt amd64 (Ceil (F64.mul it.price c0_2)) = true) ∧
    rulesOneToFive amd64 targetReceipt + 16 ≤ maxInt amd64 ∧
    0 ≤ targetReceipt.points amd64 :=
  ⟨by decide!, by decide!, by decide!,
    points_nonneg amd64 targetReceipt (by decide!) (by decide!) (by decide!)⟩

/-! ### `time.Parse` and the separator between date and time -/

theorem digit_ne_space (a : Char) (h : isDigitChar a = true) : a ≠ ' ' := by
  intro e
  rw [e] at h
  exact absurd h (by decide)

theorem cons_of_append_sep (d t rest : List Char) (a : Char)
    (h : d ++ ' ' :: t = a :: rest) (ha : a ≠ ' ') :
    ∃ d1, d = a :: d1 ∧ d1 ++ ' ' :: t = rest := by
  cases d with
  | nil =>
    simp only [List.nil_append, List.cons.injEq] at h
    exact absurd h.1.symm ha
  | cons c d1 =>
    simp only [List.cons_append, List.cons.injEq] at h
    exact ⟨d1, by rw [h.1], h.2⟩

theorem parseYear_sep (d t : List Char) (y : Nat × List Char)
    (h : parseYear (d ++ ' ' :: t) = some y) :
    ∃ d1, y.2 = d1 ++ ' ' :: t ∧
      ∀ t2, parseYear (d ++ ' ' :: t2) = some (y.1, d1 ++ ' ' :: t2) := by
  unfold parseYear at h
  split at h
  · rename_i a b c e t0 heq
    split at h
    · rename_i hd
      obtain ⟨d1, rfl, h1⟩ := cons_of_append_sep d t _ a heq (digit_ne_space a hd.1)
      obtain ⟨d2, rfl, h2⟩ := cons_of_append_sep d1 t _ b h1 (digit_ne_space b hd.2.1)
      obtain ⟨d3, rfl, h3⟩ := cons_of_append_sep d2 t _ c h2 (digit_ne_space c hd.2.2.1)
      obtain ⟨d4, rfl, h4⟩ := cons_of_append_sep d3 t _ e h3 (digit_ne_space e hd.2.2.2)
      injection h with h
      subst h
      refine ⟨d4, h4.symm, fun t2 => ?_⟩
      simp only [List.cons_append, parseYear]
      rw [if_pos hd]
    · exact absurd h (by simp)
  · exact absurd h (by simp)

theorem skipByte_sep (c : Char) (hc : c ≠ ' ') (d t v : List Char)
    (h : skipByte c (d ++ ' ' :: t) = some v) :
    ∃ d1, v = d1 ++ ' ' :: t ∧ ∀ t2, skipByte c (d ++ ' ' :: t2) = some (d1 ++ ' ' :: t2) := by
  unfold skipByte at h
  split at h
  · exact absurd h (by simp)
  · rename_i a t0 heq
    split at h
    · rename_i hac
      obtain ⟨d1, rfl, h1⟩ := cons_of_append_sep d t _ a heq (by rw [hac]; exact hc)
      injection h with h
      subst h
      refine ⟨d1, h1.symm, fun t2 => ?_⟩
      simp only [List.cons_append, skipByte]
      rw [if_pos hac]
    · exact absurd h (by simp)

theorem getnum_sep (fixed : Bool) (d t : List Char) (n : Nat × List Char)
    (h : getnum (d ++ ' ' :: t) fixed = some n) :
    ∃ d1, n.2 = d1 ++ ' ' :: t ∧
      ∀ t2, getnum (d ++ ' ' :: t2) fixed = some (n.1, d1 ++ ' ' :: t2) := by
  have hsp : isDigitChar ' ' = false := by decide
  unfold getnum at h
  split at h
  · exact absurd h (by simp)
  · rename_i a heq
    have ha : a = ' ' := by
      cases d with
      | nil =>
        simp only [List.nil_append, List.cons.injEq] at heq
        exact heq.1.symm
      | cons c d1 =>
        simp only [List.cons_append, List.cons.injEq, List.append_eq_nil] at heq
        exact absurd heq.2.2 (by simp)
    rw [ha] at h
    simp [hsp] at h
  · rename_i a b t0 heq
    by_cases hda : isDigitChar a = true
    · obtain ⟨d1, rfl, h1⟩ := cons_of_append_sep d t _ a heq (digit_ne_space a hda)
      by_cases hdb : isDigitChar b = true
      · obtain ⟨d2, rfl, h2⟩ := cons_of_append_sep d1 t _ b h1 (digit_ne_space b hdb)
        simp only [hda, hdb, not_true_eq_false, if_false, Option.some.injEq] at h
        subst h
        refine ⟨d2, h2.symm, fun t2 => ?_⟩
        simp only [List.cons_append, getnum, hda, hdb, not_true_eq_false, if_false]
      · cases fixed with
        | true => simp [hda, hdb] at h
        | false =>
          simp only [hda, hdb, not_true_eq_false, if_false, not_false_eq_true, if_true,
            Option.some.injEq, Bool.false_eq_true] at h
          subst h
          refine ⟨d1, h1.symm, fun t2 => ?_⟩
          cases d1 with
          | nil =>
            simp only [List.nil_append, List.cons_append, getnum, hda, hsp,
              not_true_eq_false, if_false, Bool.false_eq_true, not_false_eq_true, if_true]
          | cons c d2 =>
            simp only [List.cons_append, List.cons.injEq] at h1
            have hdc : ¬ isDigitChar c = true := by rw [h1.1]; exact hdb
            simp only [List.cons_append, getnum, hda, hdc, not_true_eq_false, if_false,
              Bool.false_eq_true, not_false_eq_true, if_true]
    · simp [hda] at h

theorem dropWhile_spaces_sep (d t : List Char) :
    ((∀ c ∈ d, c = ' ') ∧ ∀ t2, (d ++ ' ' :: t2).dropWhile (fun c => decide (c = ' '))
        = t2.dropWhile (fun c => decide (c = ' '))) ∨
    (∃ d1, (d ++ ' ' :: t).dropWhile (fun c => decide (c = ' ')) = d1 ++ ' ' :: t) := by
  induction d with
  | nil =>
    left
    exact ⟨by simp, fun t2 => by simp [List.dropWhile]⟩
  | cons c d ih =>
    by_cases hc : c = ' '
    · rcases ih with ⟨hall, hdrop⟩ | ⟨d1, h1⟩
      · left
        refine ⟨?_, fun t2 => ?_⟩
        · intro x hx
          rcases List.mem_cons.mp hx with hx | hx
          · rw [hx, hc]
          · exact hall x hx
        · rw [List.cons_append, List.dropWhile_cons, if_pos (by simp [hc]), hdrop]
      · right
        refine ⟨d1, ?_⟩
        rw [List.cons_append, List.dropWhile_cons, if_pos (by simp [hc]), h1]
    · right
      refine ⟨c :: d, ?_⟩
      rw [List.cons_append, List.dropWhile_cons, if_neg (by simp [hc])]

theorem ParseChars_midnight (d t : List Char) (tm : Time)
    (h : ParseChars (d ++ ' ' :: t) = some tm) :
    ParseChars (d ++ ' ' :: ['0', '0', ':', '0', '0'])
      = some ⟨tm.Year, tm.Month, tm.Day, 0, 0⟩ := by
  unfold ParseChars at h
  obtain ⟨y, hy, h⟩ := Option.bind_eq_some.mp h
  obtain ⟨v1, hv1, h⟩ := Option.bind_eq_some.mp h
  obtain ⟨m, hm, h⟩ := Option.bind_eq_some.mp h
  by_cases hmr : m.1 = 0 ∨ 12 < m.1
  · rw [if_pos hmr] at h
    exact absurd h (by simp)
  rw [if_neg hmr] at h
  obtain ⟨v2, hv2, h⟩ := Option.bind_eq_some.mp h
  obtain ⟨dd, hdd, h⟩ := Option.bind_eq_some.mp h
  obtain ⟨v3, hv3, h⟩ := Option.bind_eq_some.mp h
  obtain ⟨hh, hhh, h⟩ := Option.bind_eq_some.mp h
  by_cases hhr : 24 ≤ hh.1
  · rw [if_pos hhr] at h
    exact absurd h (by simp)
  rw [if_neg hhr] at h
  obtain ⟨v4, hv4, h⟩ := Option.bind_eq_some.mp h
  obtain ⟨mi, hmi, h⟩ := Option.bind_eq_some.mp h
  by_cases hmir : 60 ≤ mi.1
  · rw [if_pos hmir] at h
    exact absurd h (by simp)
  rw [if_neg hmir] at h
  by_cases hrest : mi.2 ≠ []
  · rw [if_pos hrest] at h
    exact absurd h (by simp)
  rw [if_neg hrest] at h
  by_cases hday : dd.1 < 1 ∨ daysIn m.1 y.1 < dd.1
  · rw [if_pos hday] at h
    exact absurd h (by simp)
  rw [if_neg hday] at h
  injection h with h
  subst h
  obtain ⟨d1, e1, f1⟩ := parseYear_sep d t y hy
  rw [e1] at hv1
  obtain ⟨d2, e2, f2⟩ := skipByte_sep '-' (by decide) d1 t v1 hv1
  rw [e2] at hm
  obtain ⟨d3, e3, f3⟩ := getnum_sep true d2 t m hm
  rw [e3] at hv2
  obtain ⟨d4, e4, f4⟩ := skipByte_sep '-' (by decide) d3 t v2 hv2
  rw [e4] at hdd
  obtain ⟨d5, e5, f5⟩ := getnum_sep true d4 t dd hdd
  rw [e5] at hv3
  have hv3b : v3 = (d5 ++ ' ' :: t).dropWhile (fun c => decide (c = ' ')) := by
    unfold skipSpace at hv3
    split at hv3
    · rename_i heq
      exact absurd heq (by simp)
    · split at hv3
      · exact absurd hv3 (by simp)
      · injection hv3 with hv3
        rw [← hv3]
  rcases dropWhile_spaces_sep d5 t with ⟨hall, hdrop⟩ | ⟨d6, h6⟩
  · have hskip : skipSpace (d5 ++ ' ' :: ['0', '0', ':', '0', '0'])
        = some ['0', '0', ':', '0', '0'] := by
      have hd := hdrop ['0', '0', ':', '0', '0']
      have h0 : List.dropWhile (fun c => decide (c = ' ')) ['0', '0', ':', '0', '0']
          = ['0', '0', ':', '0', '0'] := by decide
      rw [h0] at hd
      cases d5 with
      | nil =>
        decide
      | cons c d5 =>
        have hc : c = ' ' := hall c (List.mem_cons_self _ _)
        rw [List.cons_append] at hd ⊢
        unfold skipSpace
        simp only [hc, ne_eq, not_true_eq_false, if_false]
        rw [hc] at hd
        rw [hd]
    have g1 : getnum ['0', '0', ':', '0', '0'] false = some (0, [':', '0', '0']) := by decide
    have g2 : skipByte ':' [':', '0', '0'] = some ['0', '0'] := by decide
    have g3 : getnum ['0', '0'] true = some (0, []) := by decide
    unfold ParseChars
    simp only [f1, f2, f3, f4, f5, hskip, g1, g2, g3, Option.some_bind, hmr, hday, if_false]
    simp
  · rw [hv3b, h6] at hhh
    obtain ⟨d7, e7, _⟩ := getnum_sep false d6 t hh hhh
    rw [e7] at hv4
    obtain ⟨d8, e8, _⟩ := skipByte_sep ':' (by decide) d7 t v4 hv4
    rw [e8] at hmi
    obtain ⟨d9, e9, _⟩ := getnum_sep true d8 t mi hmi
    rw [e9] at hrest
    exact absurd hrest (by simp)

theorem Sprintf_toList (a b : String) : (Sprintf a b).toList = a.toList ++ ' ' :: b.toList := by
  simp [Sprintf, String.toList]

theorem purchasedAt_midnight (r : receipt) (t : Time) (h : r.purchasedAt = some t) :
    ({ r with PurchaseTime := "00:00" } : receipt).purchasedAt
      = some ⟨t.Year, t.Month, t.Day, 0, 0⟩ := by
  unfold receipt.purchasedAt Parse at h ⊢
  rw [Sprintf_toList] at h ⊢
  exact ParseChars_midnight _ _ t h

/-- C4: for a receipt whose purchase date and time parse, the score minus the
score of the same receipt with the time set to `00:00` is 10 when the parsed
hour is 14, 15 or 16, whatever the minute, and 0 otherwise (always so in Go
`int` arithmetic, and as a difference of integers whenever the score is a sum
that does not wrap around): the afternoon bonus is awarded exactly for an hour
in the inclusive range from 14 to 16. -/
theorem afternoon_bonus (p : Platform) (r : receipt) (t : Time)
    (h : r.purchasedAt = some t) :
    subInt p (r.points p) (({ r with PurchaseTime := "00:00" } : receipt).points p)
      = (if 14 ≤ t.Hour ∧ t.Hour ≤ 16 then 10 else 0) ∧
    (minInt p ≤ rulesOneToFive p r → rulesOneToFive p r + 16 ≤ maxInt p →
      r.points p - ({ r with PurchaseTime := "00:00" } : receipt).points p
        = (if 14 ≤ t.Hour ∧ t.Hour ≤ 16 then 10 else 0)) := by
  rw [points_before_time p r, points_before_time p { r with PurchaseTime := "00:00" },
    purchasedAt_midnight r t h, h]
  simp only []
  have e : rulesOneToFive p { r with PurchaseTime := "00:00" } = rulesOneToFive p r := rfl
  have e6 : oddDayRule ⟨t.Year, t.Month, t.Day, 0, 0⟩ = oddDayRule t := rfl
  have e7 : afternoonRule ⟨t.Year, t.Month, t.Day, 0, 0⟩ = 0 := by
    unfold afternoonRule
    simp
  rw [e, e6, e7]
  have hb := afternoonRule_bounds t
  have hd := oddDayRule_bounds t
  have hmin := minInt_nonpos p
  have hmax := maxInt_ge p
  have ha : afternoonRule t = (if 14 ≤ t.Hour ∧ t.Hour ≤ 16 then 10 else 0) := by
    unfold afternoonRule
    by_cases hc : t.Hour = 14 ∨ t.Hour = 15 ∨ t.Hour = 16
    · rw [if_pos hc, if_pos (by omega)]
    · rw [if_neg hc, if_neg (by omega)]
  constructor
  · have e8 : rulesOneToFive p r + oddDayRule t + afternoonRule t
        - (rulesOneToFive p r + oddDayRule t + 0) = afternoonRule t := by omega
    rw [subInt_wrap, e8, wrap_of_fits p _ (by omega) (by omega), ha]
  · intro h1 h2
    rw [wrap_of_fits p _ (by omega) (by omega), wrap_of_fits p _ (by omega) (by omega), ← ha]
    omega

/-- C4 on the `"Target"` receipt with the purchase times `14:00`, `15:59`,
`16:00`, `16:59` (bonus 10) and `13:59`, `17:00` (no bonus). -/
theorem afternoon_bonus_witness :
    (["14:00", "15:59", "16:00", "16:59", "13:59", "17:00"].map fun tm =>
      ({ targetReceipt with PurchaseTime := tm } : receipt).purchasedAt.map
        (fun t => t.Hour)) = [some 14, some 15, some 16, some 16, some 13, some 17] ∧
    (["14:00", "15:59", "16:00", "16:59", "13:59", "17:00"].map fun tm =>
      subInt amd64 (({ targetReceipt with PurchaseTime := tm } : receipt).points amd64)
        (({ targetReceipt with PurchaseTime := "00:00" } : receipt).points amd64))
      = [10, 10, 10, 10, 0, 0] := by
  refine ⟨by decide!, ?_⟩
  simp only [List.map]
  rw [(afternoon_bonus amd64 { targetReceipt with PurchaseTime := "14:00" }
      ⟨2022, 1, 1, 14, 0⟩ (by decide!)).1,
    (afternoon_bonus amd64 { targetReceipt with PurchaseTime := "15:59" }
      ⟨2022, 1, 1, 15, 59⟩ (by decide!)).1,
    (afternoon_bonus amd64 { targetReceipt with PurchaseTime := "16:00" }
      ⟨2022, 1, 1, 16, 0⟩ (by decide!)).1,
    (afternoon_bonus amd64 { targetReceipt with PurchaseTime := "16:59" }
      ⟨2022, 1, 1, 16, 59⟩ (by decide!)).1,
    (afternoon_bonus amd64 { targetReceipt with PurchaseTime := "13:59" }
      ⟨2022, 1, 1, 13, 59⟩ (by decide!)).1,
    (afternoon_bonus amd64 { targetReceipt with PurchaseTime := "17:00" }
      ⟨2022, 1, 1, 17, 0⟩ (by decide!)).1]
  decide

/-! ### The rules as the doc comment of `points` words them -/

/-- C11, a defect of the code: the doc comment of `points` promises the 10
points for a purchase after 2:00pm and before 4:00pm, but the code tests
`Hour() <= 16`: every receipt whose time parses with hour 16 gets the bonus.
The `"Target"` receipt (28 points at `13:01`, and at `17:00` or `00:00`)
scores 38 at `16:00`, `16:30` and `16:59`. -/
theorem afternoon_bonus_at_hour_sixteen :
    (∀ (p : Platform) (r : receipt) (t : Time), r.purchasedAt = some t → t.Hour = 16 →
      r.points p = wrap p (rulesOneToFive p r + oddDayRule t + 10)) ∧
    ({ targetReceipt with PurchaseTime := "16:30" } : receipt).purchasedAt
      = some ⟨2022, 1, 1, 16, 30⟩ ∧
    ({ targetReceipt with PurchaseTime := "16:30" } : receipt).points amd64 = 38 ∧
    ({ targetReceipt with PurchaseTime := "16:00" } : receipt).points amd64 = 38 ∧
    ({ targetReceipt with PurchaseTime := "16:59" } : receipt).points amd64 = 38 ∧
    ({ targetReceipt with PurchaseTime := "17:00" } : receipt).points amd64 = 28 ∧
    ({ targetReceipt with PurchaseTime := "00:00" } : receipt).points amd64 = 28 := by
  refine ⟨?_, by decide!, by decide!, by decide!, by decide!, by decide!, by decide!⟩
  intro p r t h h16
  rw [points_before_time, h]
  simp only []
  have e : afternoonRule t = 10 := by
    unfold afternoonRule
    rw [if_pos (Or.inr (Or.inr h16))]
  rw [e]

/-- C12, a defect of the code: the doc comment of `points` promises 5 points
for every two items, but the code adds `totalLines / 2 * 5` only under the
guard `totalLines > 2`: a receipt with exactly two items (that earn nothing
under the description-length rule) scores what it scores without items.  The
`"Target"` receipt scores 12 with no item and with two items `"ab"`, 17 with
three and 22 with four. -/
theorem no_item_pair_points_for_two_items :
    (∀ (p : Platform) (r : receipt) (a b : item),
      itemContribution p a = 0 → itemContribution p b = 0 →
      ({ r with Items := [a, b] } : receipt).points p
        = ({ r with Items := [] } : receipt).points p) ∧
    itemPairBonus 2 = 0 ∧
    ({ targetReceipt with Items := [] } : receipt).points amd64 = 12 ∧
    ({ targetReceipt with Items := [⟨"ab", "1.00"⟩, ⟨"ab", "1.00"⟩] } : receipt).points amd64
      = 12 ∧
    ({ targetReceipt with Items := List.replicate 3 ⟨"ab", "1.00"⟩ } : receipt).points amd64
      = 17 ∧
    ({ targetReceipt with Items := List.replicate 4 ⟨"ab", "1.00"⟩ } : receipt).points amd64
      = 22 := by
  refine ⟨?_, by decide, by decide!, by decide!, by decide!, by decide!⟩
  intro p r a b ha hb
  rw [points_eq_wrap p { r with Items := [a, b] }, points_eq_wrap p { r with Items := [] }]
  have e1 : rulesOneToFive p { r with Items := [a, b] }
      = rulesOneToFive p { r with Items := [] } := by
    have hd : descriptionSum p [a, b] = 0 := by
      apply descriptionSum_eq_zero
      intro it hit
      rcases List.mem_cons.mp hit with h | h
      · rw [h]; exact ha
      · rw [List.mem_singleton.mp h]; exact hb
    simp only [rulesOneToFive, retailerRule, roundDollarRule, quarterRule, itemPairRule,
      descriptionRule, receipt.total, hd]
    simp [itemPairBonus, descriptionSum]
  have e2 : timeRules { r with Items := [a, b] } = timeRules { r with Items := [] } := rfl
  rw [e1, e2]

/-! ### Prices that do not parse -/

theorem itemBonus_of_ErrSyntax (p : Platform) (it : item)
    (h : (ParseFloat it.Price).2 = some NumError.ErrSyntax) : itemBonus p it = 0 := by
  have hz : ∀ q : Platform, toInt q (Ceil (F64.mul (F64.fin 0) c0_2)) = 0 := by
    intro q
    rw [c0_2_eq]
    have e : Ceil (F64.mul (F64.fin 0) (F64.fin (3602879701896397 / 18014398509481984)))
        = F64.fin 0 := by decide!
    rw [e]
    simp only [toInt]
    have h1 := minInt_nonpos q
    have h2 := maxInt_ge q
    have h3 : truncQ 0 = 0 := by decide!
    rw [h3, if_pos ⟨h1, by omega⟩]
  unfold itemBonus item.price
  rw [ParseFloat_of_ErrSyntax it.Price h]
  exact hz p

theorem itemBonus_of_price (p : Platform) (d price : String) (f : F64)
    (h : Ceil (F64.mul (ParseFloat price).1 c0_2) = f) :
    itemBonus p ⟨d, price⟩ = toInt p f := by
  show toInt p (Ceil (F64.mul (ParseFloat price).1 c0_2)) = toInt p f
  rw [h]

/-- C13, a defect of the code: `points` ignores the error of
`strconv.ParseFloat` on the ground that an invalid string is the same as a
zero value.  That holds for a price that is not a number (`"abc"` scores as
`"0"`), but for a price out of range, such as `"1e999"`, `ParseFloat` returns
an infinity with its error, and the item adds the `int` conversion of `+Inf`,
which Go leaves to the implementation: the least `int` on amd64, the largest
on arm64. -/
theorem out_of_range_price_is_not_zero :
    ParseFloat "1e999" = (F64.inf false, some NumError.ErrRange) ∧
    (∀ (p : Platform) (d : String),
      itemBonus p ⟨d, "1e999"⟩ = wrap p (p.indef (F64.inf false))) ∧
    ({ refundReceipt with Items := [⟨"abc", "1e999"⟩] } : receipt).points amd64
      = -9223372036854775808 ∧
    ({ refundReceipt with Items := [⟨"abc", "1e999"⟩] } : receipt).points arm64
      = 9223372036854775807 ∧
    ({ refundReceipt with Items := [⟨"abc", "0"⟩] } : receipt).points amd64 = 0 ∧
    ({ refundReceipt with Items := [⟨"abc", "abc"⟩] } : receipt).points amd64 = 0 ∧
    ({ targetReceipt with Items := [⟨"Emils Cheese Pizza", "1e999"⟩] } : receipt).points amd64
      = -9223372036854775796 ∧
    ({ targetReceipt with Items := [⟨"Emils Cheese Pizza", "0"⟩] } : receipt).points amd64
      = 12 := by
  refine ⟨by decide!, ?_, by decide!, by decide!, by decide!, by decide!, by decide!,
    by decide!⟩
  intro p d
  have e : Ceil (F64.mul (ParseFloat "1e999").1 c0_2) = F64.inf false := by decide!
  rw [itemBonus_of_price p d "1e999" (F64.inf false) e]
  rfl

/-! ### White space around a description, and the order of the items -/

theorem trim_pad (ws1 d ws2 : List Char) (h1 : ∀ c ∈ ws1, isSpace c = true)
    (h2 : ∀ c ∈ ws2, isSpace c = true) :
    ((ws1 ++ d ++ ws2).dropWhile isSpace).rdropWhile isSpace
      = (d.dropWhile isSpace).rdropWhile isSpace := by
  rw [List.append_assoc, List.dropWhile_append_of_pos h1, List.dropWhile_append]
  by_cases he : (List.dropWhile isSpace d).isEmpty = true
  · rw [if_pos he, List.isEmpty_iff.mp he, List.dropWhile_eq_nil_iff.mpr h2]
  · rw [if_neg he]
    unfold List.rdropWhile
    have h3 : ∀ c ∈ ws2.reverse, isSpace c = true := fun c hc => h2 c (List.mem_reverse.mp hc)
    rw [List.reverse_append, List.dropWhile_append_of_pos h3]

theorem TrimSpace_pad (ws1 d ws2 : String) (h1 : ∀ c ∈ ws1.toList, isSpace c = true)
    (h2 : ∀ c ∈ ws2.toList, isSpace c = true) :
    TrimSpace (ws1 ++ d ++ ws2) = TrimSpace d := by
  unfold TrimSpace
  congr 1
  simp only [String.toList, String.data_append] at h1 h2 ⊢
  exact trim_pad _ _ _ h1 h2

theorem descriptionSum_append (p : Platform) (a b : List item) :
    descriptionSum p (a ++ b) = descriptionSum p a + descriptionSum p b := by
  unfold descriptionSum
  rw [List.filter_append, List.map_append, List.sum_append]

theorem points_congr (p : Platform) (r : receipt) (items items2 : List item)
    (hlen : items.length = items2.length)
    (hsum : descriptionSum p items = descriptionSum p items2) :
    ({ r with Items := items } : receipt).points p
      = ({ r with Items := items2 } : receipt).points p := by
  rw [points_eq_wrap p { r with Items := items }, points_eq_wrap p { r with Items := items2 }]
  have e1 : rulesOneToFive p { r with Items := items }
      = rulesOneToFive p { r with Items := items2 } := by
    simp only [rulesOneToFive, retailerRule, roundDollarRule, quarterRule, itemPairRule,
      descriptionRule, receipt.total, hlen, hsum]
  have e2 : timeRules { r with Items := items } = timeRules { r with Items := items2 } := rfl
  rw [e1, e2]

/-- C14: leading and trailing white space (characters of `unicode.IsSpace`) on
the short description of an item, at any place in the list of items, leaves
`points` unchanged: the padded and the bare description have the same trimmed
form, which is all the description-length rule reads. -/
theorem points_ignores_outer_white_space (p : Platform) (r : receipt)
    (front back : List item) (d price ws1 ws2 : String)
    (h1 : ∀ c ∈ ws1.toList, isSpace c = true) (h2 : ∀ c ∈ ws2.toList, isSpace c = true) :
    TrimSpace (ws1 ++ d ++ ws2) = TrimSpace d ∧
    ({ r with Items := front ++ ⟨ws1 ++ d ++ ws2, price⟩ :: back } : receipt).points p
      = ({ r with Items := front ++ ⟨d, price⟩ :: back } : receipt).points p := by
  have ht := TrimSpace_pad ws1 d ws2 h1 h2
  refine ⟨ht, ?_⟩
  apply points_congr
  · simp
  · have hc : itemContribution p ⟨ws1 ++ d ++ ws2, price⟩ = itemContribution p ⟨d, price⟩ := by
      simp only [itemContribution, descriptionFires, itemBonus, item.price, ht]
    rw [descriptionSum_append, descriptionSum_append, descriptionSum_cons, descriptionSum_cons,
      hc]

/-- C14 at the `"Target"` receipt: its last item is `"Klarbrunn 12-PK 12 FL OZ"`
(24 characters) with three spaces before and two after, and the receipt scores
28 with and without them. -/
theorem points_ignores_outer_white_space_witness :
    (∀ c ∈ "   ".toList, isSpace c = true) ∧ (∀ c ∈ "  ".toList, isSpace c = true) ∧
    "   " ++ "Klarbrunn 12-PK 12 FL OZ" ++ "  " = "   Klarbrunn 12-PK 12 FL OZ  " ∧
    (TrimSpace "Klarbrunn 12-PK 12 FL OZ").toList.length = 24 ∧
    ({ targetReceipt with Items := targetReceipt.Items.take 4 ++
        ⟨"   " ++ "Klarbrunn 12-PK 12 FL OZ" ++ "  ", "12.00"⟩ :: [] } : receipt).points amd64
      = 28 ∧
    ({ targetReceipt with Items := targetReceipt.Items.take 4 ++
        ⟨"Klarbrunn 12-PK 12 FL OZ", "12.00"⟩ :: [] } : receipt).points amd64 = 28 :=
  ⟨by decide, by decide, by decide, by decide,
    (points_ignores_outer_white_space amd64 targetReceipt (targetReceipt.Items.take 4) []
      "Klarbrunn 12-PK 12 FL OZ" "12.00" "   " "  " (by decide) (by decide)).2.trans
      (by decide!),
    by decide!⟩

/-- C15: `points` is unchanged under any permutation of the items: the items
enter the score through their number and through the sum of their
description-length points. -/
theorem points_perm_items (p : Platform) (r : receipt) (items items2 : List item)
    (h : items.Perm items2) :
    ({ r with Items := items } : receipt).points p
      = ({ r with Items := items2 } : receipt).points p := by
  apply points_congr
  · exact h.length_eq
  · unfold descriptionSum
    exact ((h.filter _).map _).sum_eq

/-- C15 at the `"Target"` receipt with its five items in reverse order: the
score is 28 again. -/
theorem points_perm_items_witness :
    targetReceipt.Items.Perm targetReceipt.Items.reverse ∧
    ({ targetReceipt with Items := targetReceipt.Items.reverse } : receipt).points amd64
      = 28 :=
  ⟨(List.reverse_perm _).symm,
    (points_perm_items amd64 targetReceipt targetReceipt.Items targetReceipt.Items.reverse
      (List.reverse_perm _).symm).symm.trans (by decide!)⟩

/-! ### The score against the retailer count -/

/-- C16, refuted: prices that are not negative can still take the score below
the retailer count.  On the `"Target"` receipt (retailer count 6) with a single
scoring item: the price `"Inf"` parses to `+Inf`, whose `int` conversion is the
least `int` on amd64 and the largest on arm64, where the sum then wraps
around; the price `"1e20"` is finite but its fifth does not fit in an `int`;
and six items at `"9e18"` make the sum wrap around. -/
theorem points_below_retailer_count :
    countAlphanumeric targetReceipt.Retailer = 6 ∧
    ParseFloat "Inf" = (F64.inf false, none) ∧
    ParseFloat "1e20" = (F64.fin 100000000000000000000, none) ∧
    ParseFloat "9e18" = (F64.fin 9000000000000000000, none) ∧
    ({ targetReceipt with Items := [⟨"Emils Cheese Pizza", "Inf"⟩] } : receipt).points amd64
      = -9223372036854775796 ∧
    ({ targetReceipt with Items := [⟨"Emils Cheese Pizza", "Inf"⟩] } : receipt).points arm64
      = -9223372036854775797 ∧
    ({ targetReceipt with Items := [⟨"Emils Cheese Pizza", "1e20"⟩] } : receipt).points amd64
      = -9223372036854775796 ∧
    ({ targetReceipt with Items := List.replicate 6 ⟨"abc", "9e18"⟩ } : receipt).points amd64
      = -7646744073709551589 ∧
    ({ targetReceipt with Items := List.replicate 6 ⟨"abc", "9e18"⟩ } : receipt).points arm64
      = -7646744073709551589 ∧
    ¬ (countAlphanumeric targetReceipt.Retailer ≤
      ({ targetReceipt with Items := [⟨"Emils Cheese Pizza", "Inf"⟩] } : receipt).points
        amd64) := by
  refine ⟨by decide, by decide!, by decide!, by decide!, by decide!, by decide!, by decide!,
    by decide!, by decide!, by decide!⟩

/-- C16, amended: when every item for which the description-length rule fires
has a price that parses to a finite value that is not negative and whose
product with 0.2, rounded up, fits in an `int`, and the sum of Rules 1 to 5
with the 16 points that Rules 6 and 7 can add does not exceed the largest
`int`, then `points` is at least the retailer count, which is at least 0, and
every other rule contributes at least 0. -/
theorem points_ge_retailer_count (p : Platform) (r : receipt)
    (hprice : ∀ it ∈ r.Items, descriptionFires it = true → isNonNegFinite it.price = true)
    (hconv : ∀ it ∈ r.Items, descriptionFires it = true →
      fitsInt p (Ceil (F64.mul it.price c0_2)) = true)
    (hsum : rulesOneToFive p r + 16 ≤ maxInt p) :
    0 ≤ countAlphanumeric r.Retailer ∧ countAlphanumeric r.Retailer ≤ r.points p ∧
    0 ≤ roundDollarRule r ∧ 0 ≤ quarterRule r ∧ 0 ≤ itemPairRule r ∧
    0 ≤ descriptionRule p r ∧ 0 ≤ timeRules r := by
  have h1 := countAlphanumeric_nonneg r.Retailer
  have h2 := roundDollarRule_nonneg r
  have h3 := quarterRule_nonneg r
  have h4 := itemPairRule_nonneg r
  have h5 : 0 ≤ descriptionRule p r :=
    descriptionSum_nonneg p r.Items
      (fun it hit hf => itemBonus_nonneg p it (hprice it hit hf) (hconv it hit hf))
  have h67 := timeRules_bounds r
  refine ⟨h1, ?_, h2, h3, h4, h5, h67.1⟩
  have hr : retailerRule r = countAlphanumeric r.Retailer := (countAlphanumeric_eq _).symm
  have hmin := minInt_nonpos p
  have e : rulesOneToFive p r = countAlphanumeric r.Retailer + roundDollarRule r
      + quarterRule r + itemPairRule r + descriptionRule p r := by
    unfold rulesOneToFive
    rw [hr]
  rw [points_eq_wrap, wrap_of_fits p _ (by omega) (by omega)]
  omega

/-- C16 amended, at the `"Target"` receipt: its scoring items cost `12.25` and
`12.00`, the retailer count is 6 and the score 28. -/
theorem points_ge_retailer_count_witness :
    (∀ it ∈ targetReceipt.Items, descriptionFires it = true →
      isNonNegFinite it.price = true) ∧
    (∀ it ∈ targetReceipt.Items, descriptionFires it = true →
      fitsInt amd64 (Ceil (F64.mul it.price c0_2)) = true) ∧
    rulesOneToFive amd64 targetReceipt + 16 ≤ maxInt amd64 ∧
    countAlphanumeric targetReceipt.Retailer = 6 ∧
    countAlphanumeric targetReceipt.Retailer ≤ targetReceipt.points amd64 :=
  ⟨by decide!, by decide!, by decide!, by decide,
    (points_ge_retailer_count amd64 targetReceipt (by decide!) (by decide!)
      (by decide!)).2.1⟩

end Main
